import Mathlib

/-!
Verification of the embedded-ci job execution engine against its
natural-language specification.

The Rust sources are embedded shallowly:

* `src/common/src/lib.rs` — wrapper types, `Target`, `Targets`, `UnordEqVec`
  and `ServerStatus` (job ids, Rust `Uuid`, are modelled as `Nat`; the Rust
  `HashSet` of finished jobs is modelled as a duplicate-free list; each
  `log::error!` emitted by the `error_if_*` macros is counted).
* `src/common/src/job.rs` — the job validator `validate_tasks_coherency`
  (the external `base64::decode` is a parameter `dec`; the `HashMap` that
  groups resolutions by probe serial is determinised to first-occurrence
  key order, which is invisible to the set-like `UnordEqVec` equality used
  by `ValidationErrors`).
* `src/server/src/routes.rs` — the `post_job` handler (the channel
  `try_send` outcome is a parameter).
* `src/server/src/app.rs` / `src/server/src/runner.rs` — the worker's
  effective timeout, the RTT drain loop (iterations are observed as a list
  of read-chunk / halted / elapsed-time records), the straight-line debug
  actions of `Runner::run`, the ELF introspection of `Runner::new` (over
  the symbol and section view that the `object` crate presents), and the
  defmt branch of `log_to_string` (the external stream decoder is observed
  as a list of decode outcomes).
-/

namespace EmbeddedCI

/-- Probe serial wrapper (`ProbeSerial` in src/common/src/lib.rs). -/
structure ProbeSerial where
  val : String
  deriving DecidableEq, Repr

/-- Probe alias wrapper (`ProbeAlias` in src/common/src/lib.rs). -/
structure ProbeAlias where
  val : String
  deriving DecidableEq, Repr

/-- Target name wrapper (`TargetName` in src/common/src/lib.rs). -/
structure TargetName where
  val : String
  deriving DecidableEq, Repr

/-- Target group wrapper (`TargetGroup` in src/common/src/lib.rs). -/
structure TargetGroup where
  val : String
  deriving DecidableEq, Repr

/-- The definition of an embedded target (`Target` in src/common/src/lib.rs).
The `UnordEqVec<TargetGroup>` field is carried as a plain list; the
order-insensitive equality the Rust `PartialEq` derives through it is
`Target.beqRust` below. -/
structure Target where
  probe_serial : ProbeSerial
  probe_alias : ProbeAlias
  target_name : TargetName
  groups : List TargetGroup
  deriving DecidableEq, Repr

/-- `UnordEqVec::eq` (src/common/src/lib.rs lines 153-158): two vectors are
equal when each element of either is contained in the other, element
comparison being `eq`. -/
def unordEq (eq : α → α → Bool) (a b : List α) : Bool :=
  a.all (fun v => b.any (fun w => eq w v)) && b.all (fun v => a.any (fun w => eq w v))

/-- The Rust `PartialEq` of `Target`: field-wise, with `groups` compared as an
`UnordEqVec`. -/
def Target.beqRust (a b : Target) : Bool :=
  a.probe_serial == b.probe_serial && a.probe_alias == b.probe_alias &&
    a.target_name == b.target_name && unordEq (· == ·) a.groups b.groups

/-- A list of targets (`Targets` in src/common/src/lib.rs). -/
structure Targets where
  targets : List Target
  deriving DecidableEq, Repr

/-- `Targets::find_by_probe_serial`: first target with the given serial. -/
def Targets.find_by_probe_serial (ts : Targets) (p : ProbeSerial) : Option Target :=
  ts.targets.find? (fun t => t.probe_serial == p)

/-- `Targets::find_by_target_name`: first target with the given name. -/
def Targets.find_by_target_name (ts : Targets) (n : TargetName) : Option Target :=
  ts.targets.find? (fun t => t.target_name == n)

/-- `Targets::find_by_probe_alias`: first target with the given alias. -/
def Targets.find_by_probe_alias (ts : Targets) (a : ProbeAlias) : Option Target :=
  ts.targets.find? (fun t => t.probe_alias == a)

/-- `Targets::find_by_group`: all targets belonging to the group, in
inventory order (the Rust lazy iterator, materialised). -/
def Targets.find_by_group (ts : Targets) (g : TargetGroup) : List Target :=
  ts.targets.filter (fun t => t.groups.contains g)

/-- Status of a queried job (`JobStatus` in src/common/src/lib.rs). -/
inductive JobStatus where
  | notFound
  | inQueue
  | running
  | finished
  deriving DecidableEq, Repr

/-- `ServerStatus` (src/common/src/lib.rs lines 17-22). Job ids are `Nat`;
`jobs_finished` models the `HashSet<Uuid>` as a duplicate-free list. -/
structure ServerStatus where
  current_job : Option Nat
  jobs_in_queue : List Nat
  jobs_finished : List Nat
  deriving DecidableEq, Repr

/-- `ServerStatus::default()`: everything empty. -/
def ServerStatus.default : ServerStatus := ⟨none, [], []⟩

/-- `ServerStatus::job_started` (lines 71-75). `pop_front().unwrap()` panics
on an empty queue, modelled as `none`; otherwise the head is popped and
`current_job` is replaced by `id`. The returned `Nat` counts the
`log::error!` calls made by the `error_if_not_eq!` macros. -/
def ServerStatus.job_started (s : ServerStatus) (id : Nat) : Option (ServerStatus × Nat) :=
  match s.jobs_in_queue with
  | [] => none
  | oldest :: rest =>
      let logs := (if oldest = id then 0 else 1) + (if s.current_job = none then 0 else 1)
      some (⟨some id, rest, s.jobs_finished⟩, logs)

/-- `ServerStatus::job_finished` (lines 79-82): take `current_job` (logging
unless it was `Some(id)`) and insert `id` into the finished set (logging if
it was already there). -/
def ServerStatus.job_finished (s : ServerStatus) (id : Nat) : ServerStatus × Nat :=
  let l1 := if s.current_job = some id then 0 else 1
  let l2 := if id ∈ s.jobs_finished then 1 else 0
  (⟨none, s.jobs_in_queue,
      if id ∈ s.jobs_finished then s.jobs_finished else id :: s.jobs_finished⟩, l1 + l2)

/-- `ServerStatus::job_cleared` (lines 86-88): remove `id` from the finished
set, logging if it was not there. -/
def ServerStatus.job_cleared (s : ServerStatus) (id : Nat) : ServerStatus × Nat :=
  (⟨s.current_job, s.jobs_in_queue, s.jobs_finished.erase id⟩,
    if id ∈ s.jobs_finished then 0 else 1)

/-- `ServerStatus::job_enqueued` (lines 92-97): log when `id` is the current
job, already queued, or already finished; then push it at the back of the
queue unconditionally. -/
def ServerStatus.job_enqueued (s : ServerStatus) (id : Nat) : ServerStatus × Nat :=
  let l := (if s.current_job = some id then 1 else 0) +
    (if id ∈ s.jobs_in_queue then 1 else 0) + (if id ∈ s.jobs_finished then 1 else 0)
  (⟨s.current_job, s.jobs_in_queue ++ [id], s.jobs_finished⟩, l)

/-- `ServerStatus::job_status` (lines 99-110). -/
def ServerStatus.job_status (s : ServerStatus) (id : Nat) : JobStatus :=
  if s.current_job = some id then .running
  else if id ∈ s.jobs_in_queue then .inQueue
  else if id ∈ s.jobs_finished then .finished
  else .notFound

/-- `RunOn` (src/common/src/lib.rs lines 116-125): a selector over probe
serials, probe aliases, target names or groups. -/
inductive RunOn where
  | probe_serials (l : List ProbeSerial)
  | probe_aliases (l : List ProbeAlias)
  | targets (l : List TargetName)
  | groups (l : List TargetGroup)
  deriving DecidableEq, Repr

/-- `TaskDesc` (src/common/src/job.rs lines 182-188). -/
structure TaskDesc where
  run_on : List RunOn
  binary_b64 : String
  deriving DecidableEq, Repr

/-- `Task` (src/common/src/job.rs lines 46-55); the random `Uuid` id is not
modelled. Binary bytes are `Nat`s below 256. -/
structure Task where
  targets : List Target
  binary : List Nat
  deriving DecidableEq, Repr

/-- `ValidationError` (src/common/src/job.rs lines 221-252). -/
inductive ValidationError where
  | targetNotAvailable (entry : String)
  | targetIsNotUnique (target : Target) (entries : List String)
  | base64DecodingFailed (entry : String) (error_details : String)
  | noTargetChosen (entry : String)
  deriving DecidableEq, Repr

/-- The Rust `PartialEq` of `ValidationError` (derived): `entries` of
`TargetIsNotUnique` is an `UnordEqVec<String>` and `target` compares with
the `UnordEqVec` group semantics. -/
def ValidationError.beqRust : ValidationError → ValidationError → Bool
  | .targetNotAvailable e, .targetNotAvailable f => e == f
  | .targetIsNotUnique t es, .targetIsNotUnique u fs =>
      Target.beqRust t u && unordEq (· == ·) es fs
  | .base64DecodingFailed e d, .base64DecodingFailed f g => e == f && d == g
  | .noTargetChosen e, .noTargetChosen f => e == f
  | _, _ => false

/-- The Rust `PartialEq` of `ValidationErrors` (src/common/src/job.rs lines
191-196): its single field is an `UnordEqVec<ValidationError>`. -/
def validationErrorsEqRust (a b : List ValidationError) : Bool :=
  unordEq ValidationError.beqRust a b

/-- The entry-path built by `validate_tasks_coherency` for one identifier:
`format!("{} @ tasks.{}.run_on.{}.<variant>.{}", ident, it, ir, irr)`. -/
def entryKey (ident : String) (it ir : Nat) (variant : String) (irr : Nat) : String :=
  ident ++ " @ tasks." ++ toString it ++ ".run_on." ++ toString ir ++ "." ++
    variant ++ "." ++ toString irr

/-- The `(entry-path, Option<Target>)` records pushed onto
`position_target_map` by one `RunOn` arm of `validate_tasks_coherency`
(src/common/src/job.rs lines 270-335). `it`/`ir` are the task and `run_on`
indices. A group with no member records a single `(key, None)`; a group
with members records one `(key, Some target)` per member. -/
def runOnEntries (avail : Targets) (it ir : Nat) : RunOn → List (String × Option Target)
  | .probe_serials ps =>
      (List.enumFrom 0 ps).map (fun p =>
        (entryKey p.2.val it ir "probe_serials" p.1, avail.find_by_probe_serial p.2))
  | .probe_aliases l =>
      (List.enumFrom 0 l).map (fun p =>
        (entryKey p.2.val it ir "probe_aliases" p.1, avail.find_by_probe_alias p.2))
  | .targets ns =>
      (List.enumFrom 0 ns).map (fun p =>
        (entryKey p.2.val it ir "targets" p.1, avail.find_by_target_name p.2))
  | .groups gs =>
      ((List.enumFrom 0 gs).map (fun p =>
        let key := entryKey p.2.val it ir "groups" p.1
        let found := avail.find_by_group p.2
        if found.isEmpty then [(key, none)] else found.map (fun t => (key, some t)))).flatten

/-- Whether the task loop set `at_least_one_target`: some selector of the
task carries at least one identifier. -/
def taskHasTargetEntry (td : TaskDesc) : Bool :=
  td.run_on.any (fun ro =>
    match ro with
    | .probe_serials l => !l.isEmpty
    | .probe_aliases l => !l.isEmpty
    | .targets l => !l.isEmpty
    | .groups l => !l.isEmpty)

/-- All `position_target_map` records of one task. -/
def taskEntries (avail : Targets) (it : Nat) (td : TaskDesc) : List (String × Option Target) :=
  ((List.enumFrom 0 td.run_on).map (fun p => runOnEntries avail it p.1 p.2)).flatten

/-- The full `position_target_map` of `validate_tasks_coherency`. -/
def positionTargetMap (tds : List TaskDesc) (avail : Targets) : List (String × Option Target) :=
  ((List.enumFrom 0 tds).map (fun p => taskEntries avail p.1 p.2)).flatten

/-- The `targets` vector accumulated for one task: every resolved target, in
resolution order. -/
def taskTargets (avail : Targets) (it : Nat) (td : TaskDesc) : List Target :=
  (taskEntries avail it td).filterMap (fun p => p.2)

/-- The `NoTargetChosen` and `Base64DecodingFailed` errors pushed inside the
task loop, in push order. `dec` stands for the external `base64::decode`
(`.error` carries the stringified decode error). -/
def taskLoopErrors (dec : String → Except String (List Nat)) (tds : List TaskDesc) :
    List ValidationError :=
  ((List.enumFrom 0 tds).map (fun p =>
    (if taskHasTargetEntry p.2 then []
     else [ValidationError.noTargetChosen ("tasks." ++ toString p.1 ++ ".run_on")]) ++
      (match dec p.2.binary_b64 with
       | .ok _ => []
       | .error e =>
           [ValidationError.base64DecodingFailed ("tasks." ++ toString p.1 ++ ".binary_b64") e]))).flatten

/-- The `tasks` built from an indexed slice of task descriptions: one `Task`
per description whose binary decodes. -/
def validateTasksAux (dec : String → Except String (List Nat)) (avail : Targets)
    (l : List (Nat × TaskDesc)) : List Task :=
  l.filterMap (fun p =>
    match dec p.2.binary_b64 with
    | .ok bin => some ⟨taskTargets avail p.1 p.2, bin⟩
    | .error _ => none)

/-- The `tasks` vector built by the loop: one `Task` per task description
whose binary decodes. -/
def validateTasks (dec : String → Except String (List Nat)) (avail : Targets)
    (tds : List TaskDesc) : List Task :=
  validateTasksAux dec avail (List.enumFrom 0 tds)

/-- The `TargetNotAvailable` errors: one per `(entry-path, None)` record, in
record order (src/common/src/job.rs lines 351-355). -/
def notAvailableErrors (posMap : List (String × Option Target)) : List ValidationError :=
  posMap.filterMap (fun p =>
    match p.2 with
    | none => some (ValidationError.targetNotAvailable p.1)
    | some _ => none)

/-- The resolved records of `position_target_map`, `None`s dropped. -/
def resolvedEntries (posMap : List (String × Option Target)) : List (String × Target) :=
  posMap.filterMap (fun p => p.2.map (fun t => (p.1, t)))

/-- The entry-paths that resolved to probe serial `s`, in record order: the
per-serial position list of `target_position_map` (src/common/src/job.rs
lines 357-368). -/
def entriesFor (res : List (String × Target)) (s : ProbeSerial) : List String :=
  (res.filter (fun p => p.2.probe_serial == s)).map (fun p => p.1)

/-- The target stored for serial `s` in `target_position_map`: the target of
the first record resolving to `s` (`or_insert_with` keeps the first). -/
def firstTargetFor (res : List (String × Target)) (s : ProbeSerial) : Option Target :=
  (res.find? (fun p => p.2.probe_serial == s)).map (fun p => p.2)

/-- First-occurrence deduplication (skipping everything in `seen`), used to
determinise the iteration order of the Rust `HashMap` by first-insertion
order. -/
def dedupFirstAux (seen : List ProbeSerial) : List ProbeSerial → List ProbeSerial
  | [] => []
  | s :: rest =>
      if s ∈ seen then dedupFirstAux seen rest
      else s :: dedupFirstAux (s :: seen) rest

/-- The distinct probe serials of the resolved records, in first-occurrence
order: the keys of `target_position_map`. -/
def serialsInOrder (res : List (String × Target)) : List ProbeSerial :=
  dedupFirstAux [] (res.map (fun p => p.2.probe_serial))

/-- The `TargetIsNotUnique` error produced for serial `s`, when its position
list has two or more entries (src/common/src/job.rs lines 370-377). -/
def notUniqueEmit (res : List (String × Target)) (s : ProbeSerial) : Option ValidationError :=
  if 2 ≤ (entriesFor res s).length then
    (firstTargetFor res s).map (fun t => ValidationError.targetIsNotUnique t (entriesFor res s))
  else none

/-- All `TargetIsNotUnique` errors, one per duplicated serial. -/
def notUniqueErrors (res : List (String × Target)) : List ValidationError :=
  (serialsInOrder res).filterMap (notUniqueEmit res)

/-- Whether an error is a `TargetIsNotUnique` whose target carries probe
serial `s`. -/
def isNotUniqueFor (s : ProbeSerial) : ValidationError → Bool
  | .targetIsNotUnique t _ => t.probe_serial == s
  | _ => false

/-- Every error collected by `validate_tasks_coherency`, in push order (the
`HashMap` iteration of the last group determinised to first-occurrence key
order; `ValidationErrors` equality ignores order anyway). -/
def validationErrors (dec : String → Except String (List Nat)) (tds : List TaskDesc)
    (avail : Targets) : List ValidationError :=
  taskLoopErrors dec tds ++ notAvailableErrors (positionTargetMap tds avail) ++
    notUniqueErrors (resolvedEntries (positionTargetMap tds avail))

/-- `validate_tasks_coherency` (src/common/src/job.rs lines 259-384): the
collected tasks when no error was found, the error list otherwise. -/
def validate_tasks_coherency (dec : String → Except String (List Nat)) (tds : List TaskDesc)
    (avail : Targets) : Except (List ValidationError) (List Task) :=
  if (validationErrors dec tds avail).isEmpty then .ok (validateTasks dec avail tds)
  else .error (validationErrors dec tds avail)

/-- A validated `Job` as seen by the `post_job` handler, reduced to its id
(the body returned to the client). -/
structure JobM where
  id : Nat
  deriving DecidableEq, Repr

/-- Outcome of `mpsc::Sender::try_send` on the register channel. -/
inductive SendOutcome where
  | sendOk
  | sendFull
  | sendClosed
  deriving DecidableEq, Repr

/-- The response of the `POST /job` handler: `Accepted` with the job body,
or one of the `PostJobError` variants (src/server/src/routes.rs lines
18-26). -/
inductive PostJobResponse where
  | accepted (body : JobM)
  | invalidJob (errors : List ValidationError)
  | tooManyJobs
  | internalQueueClosed
  deriving DecidableEq, Repr

/-- The HTTP status each response variant is rendered with (the `Accepted`
responder and the `#[response(status = ...)]` attributes). -/
def postJobStatusCode : PostJobResponse → Nat
  | .accepted _ => 202
  | .invalidJob _ => 400
  | .tooManyJobs => 425
  | .internalQueueClosed => 500

/-- `post_job` (src/server/src/routes.rs lines 28-46). `validated` is the
outcome of `Job::from_desc`; `send` the outcome of the non-blocking
`try_send`. On success the server status is transitioned by `job_enqueued`
before the reply is produced; on a full or closed channel it is left
untouched. -/
def post_job (validated : Except (List ValidationError) JobM) (send : SendOutcome)
    (st : ServerStatus) : PostJobResponse × ServerStatus :=
  match validated with
  | .error e => (.invalidJob e, st)
  | .ok job =>
      match send with
      | .sendOk => (.accepted job, (st.job_enqueued job.id).1)
      | .sendFull => (.tooManyJobs, st)
      | .sendClosed => (.internalQueueClosed, st)

/-- One iteration of the RTT drain loop (src/server/src/runner.rs lines
334-362), as observed from outside: the bytes the channel read returned,
the `core_halted?` answer, the extra bytes of the final drain performed
when halted, and the time elapsed since loop entry at the timeout check. -/
structure DrainObs where
  chunk : List Nat
  halted : Bool
  finalChunk : List Nat
  elapsed : Nat
  deriving DecidableEq, Repr

/-- The drain loop: accumulate chunks; on halt do one final drain and stop;
otherwise fail with the partial log once `elapsed > timeout`. `dec` stands
for `log_to_string(..).unwrap_or_default()`. `none` models a loop that ran
out of observations (the real loop only exits by halt or timeout). -/
def drainLoop (timeout : Nat) (dec : List Nat → String) :
    List DrainObs → List Nat → Option (Except String (List Nat))
  | [], _ => none
  | o :: rest, buf =>
      let buf2 := buf ++ o.chunk
      if o.halted then some (.ok (buf2 ++ o.finalChunk))
      else if timeout < o.elapsed then
        some (.error ("The firmware reached timeout, partial log:\n" ++ dec buf2))
      else drainLoop timeout dec rest buf2

/-- The effective deadline `Worker::run_test` hands to `Runner::run`
(src/server/src/app.rs lines 263-268): `timeout_secs.min(max_target_timeout)`. -/
def effectiveTimeout (jobTimeoutSecs maxTargetTimeout : Nat) : Nat :=
  min jobTimeoutSecs maxTargetTimeout

/-- The drain loop as run by a worker for a job: deadline
`min(job.timeout, max_target_timeout)`, starting from an empty buffer. -/
def workerDrain (jobTimeoutSecs maxTargetTimeout : Nat) (dec : List Nat → String)
    (obs : List DrainObs) : Option (Except String (List Nat)) :=
  drainLoop (effectiveTimeout jobTimeoutSecs maxTargetTimeout) dec obs []

/-- `timesOutAt deadline obs k`: the first `k` iterations neither halt nor
exceed the deadline, and iteration `k` does not halt but finds
`deadline < elapsed`. -/
def timesOutAt (deadline : Nat) (obs : List DrainObs) (k : Nat) : Bool :=
  ((obs.take k).all (fun o => !o.halted && o.elapsed ≤ deadline)) &&
    (match obs.get? k with
     | some o => !o.halted && deadline < o.elapsed
     | none => false)

/-- A symbol as presented by the `object` crate: name and address (`u64`). -/
structure ElfSymbol where
  name : String
  addr : Nat
  deriving DecidableEq, Repr

/-- A section as presented by the `object` crate: name, address and bytes
(`none` when `section.data()` fails). -/
structure ElfSection where
  name : String
  addr : Nat
  data : Option (List Nat)
  deriving DecidableEq, Repr

/-- A parsed ELF file, reduced to what `Runner::new` inspects. -/
structure EFile where
  symbols : List ElfSymbol
  sections : List ElfSection
  deriving DecidableEq, Repr

/-- `2^32`, the `u32` modulus. -/
def U32MOD : Nat := 4294967296

/-- Clearing the Thumb bit: `addr & !THUMB_BIT` on an address below `2^32`. -/
def maskThumb (a : Nat) : Nat := a - a % 2

/-- The symbol scan of `Runner::new` (src/server/src/runner.rs lines
102-119): remember the `main` address (`as u32`, Thumb bit cleared) and the
`_SEGGER_RTT` address (`as u32`), stopping early once both are found. -/
def scanSymbols : List ElfSymbol → Option Nat → Option Nat → Option Nat × Option Nat
  | [], mainAcc, rttAcc => (mainAcc, rttAcc)
  | sym :: rest, mainAcc, rttAcc =>
      let mainAcc := if sym.name = "main" then some (maskThumb (sym.addr % U32MOD)) else mainAcc
      let rttAcc := if sym.name = "_SEGGER_RTT" then some (sym.addr % U32MOD) else rttAcc
      if mainAcc.isSome && rttAcc.isSome then (mainAcc, rttAcc)
      else scanSymbols rest mainAcc rttAcc

/-- Holds important symbol addresses (`Symbols` in src/server/src/runner.rs). -/
structure Symbols where
  main : Nat
  rtt : Nat
  deriving DecidableEq, Repr

/-- Holds important vector table addresses (`VectorTable` in
src/server/src/runner.rs). -/
structure VectorTable where
  start : Nat
  stack_pointer : Nat
  reset : Nat
  hardfault : Nat
  deriving DecidableEq, Repr

/-- A little-endian 32-bit word from four bytes. -/
def leWord (b0 b1 b2 b3 : Nat) : Nat := b0 + 256 * b1 + 65536 * b2 + 16777216 * b3

/-- `data.chunks_exact(4)` mapped through `u32::from_le_bytes` (a trailing
fragment shorter than 4 bytes is dropped). -/
def vtWords : List Nat → List Nat
  | b0 :: b1 :: b2 :: b3 :: rest => leWord b0 b1 b2 b3 :: vtWords rest
  | _ => []

/-- The sections important to `Runner::new`. -/
def importantSections : List String := [".vector_table", ".text", ".rodata", ".data"]

/-- The section loop of `Runner::new` (src/server/src/runner.rs lines
132-182): check 4-byte alignment of important sections; from each
`.vector_table` section take the word-0/1/3 addresses and the section
address (which must fit a `u32`), and set `from_ram := addr >= 0x2000_0000`. -/
def processSections :
    List ElfSection → Option VectorTable → Bool → Except String (Option VectorTable × Bool)
  | [], vt, fr => .ok (vt, fr)
  | sec :: rest, vt, fr =>
      if importantSections.contains sec.name then
        if sec.addr % 4 ≠ 0 then
          .error ("Section '" ++ sec.name ++ "' is not 4 byte aligned")
        else if sec.name = ".vector_table" then
          match sec.data with
          | none => .error ("There is no data in section '" ++ sec.name ++ "'")
          | some data =>
              if data.length < 16 then
                .error ("Section '" ++ sec.name ++ "' is too small")
              else if U32MOD ≤ sec.addr then
                .error ("The address of section '" ++ sec.name ++ "' is not 32-bit")
              else
                let w := vtWords data
                processSections rest
                  (some ⟨sec.addr, w.getD 0 0, w.getD 1 0, w.getD 3 0⟩)
                  (decide (536870912 ≤ sec.addr))
        else processSections rest vt fr
      else processSections rest vt fr

/-- The RAM-residency threshold `0x2000_0000`. -/
def RAM_START : Nat := 536870912

/-- The best guess of the RTT kind (`RttType` in src/server/src/runner.rs).
The defmt table is abstracted to `table.encoding().can_recover()`, the only
thing `log_to_string` asks of it. -/
inductive RttType where
  | defmtTable (canRecover : Bool)
  | plainText
  deriving DecidableEq, Repr

/-- The target-independent state of a constructed `Runner`
(src/server/src/runner.rs lines 63-72). -/
structure Runner where
  from_ram : Bool
  symbols : Symbols
  vector_table : VectorTable
  rtt_type : RttType
  deriving DecidableEq, Repr

/-- `Runner::new` (src/server/src/runner.rs lines 90-213). `defmtParse`
stands for `defmt_decoder::Table::parse` composed with `get_locations`:
`.ok none` when the ELF has no `.defmt` section, `.ok (some canRecover)`
when a table parses, `.error` when the external parser fails. -/
def runnerNew (elf : EFile) (defmtParse : Except String (Option Bool)) :
    Except String Runner :=
  match scanSymbols elf.symbols none none with
  | (mainAddr?, rttAddr?) =>
      match mainAddr? with
      | none => .error "'main' symbol not found"
      | some mainAddr =>
          match rttAddr? with
          | none => .error "'_SEGGER_RTT' symbol not found, without RTT this CI tool will not work"
          | some rttAddr =>
              match processSections elf.sections none false with
              | .error e => .error e
              | .ok (vt?, fromRam) =>
                  match defmtParse with
                  | .error e => .error e
                  | .ok table? =>
                      match vt? with
                      | none => .error "'.vector_table' section not found"
                      | some vt =>
                          .ok { from_ram := fromRam, symbols := ⟨mainAddr, rttAddr⟩,
                                vector_table := vt,
                                rtt_type :=
                                  match table? with
                                  | some canRec => RttType.defmtTable canRec
                                  | none => RttType.plainText }

/-- One debug operation issued by `Runner::run`. -/
inductive DebugAction where
  | writeReg (reg : Nat) (value : Nat)
  | writeWord32 (addr : Nat) (value : Nat)
  | write8 (addr : Nat) (bytes : List Nat)
  | setHwBreakpoint (addr : Nat)
  | clearHwBreakpoint (addr : Nat)
  | runCore
  | waitForHalt
  deriving DecidableEq, Repr

/-- Register ids and the VTOR address (src/server/src/runner.rs lines 19-24). -/
def SPreg : Nat := 13

/-- PC register id. -/
def PCreg : Nat := 15

/-- The Vector Table Offset Register address `0xE000ED08`. -/
def VTORaddr : Nat := 3758157064

/-- The "Starting target" block of `Runner::run` (src/server/src/runner.rs
lines 281-310): on the RAM path write PC from the reset vector, SP from the
stack-pointer word and VTOR from the table start; on the flash path reset
the RTT control block, run to a hardware breakpoint at `main`, set the
block-if-full flag, and clear the breakpoint. -/
def startTargetActions (r : Runner) : List DebugAction :=
  if r.from_ram then
    [.writeReg PCreg r.vector_table.reset,
      .writeReg SPreg r.vector_table.stack_pointer,
      .writeWord32 VTORaddr r.vector_table.start]
  else
    [.writeWord32 r.symbols.rtt 305414708,
      .setHwBreakpoint r.symbols.main,
      .runCore, .waitForHalt,
      .writeWord32 (r.symbols.rtt + 44) 2,
      .clearHwBreakpoint r.symbols.main]

/-- The exit-arming block of `Runner::run` (src/server/src/runner.rs lines
312-321): patch a `BKPT` opcode over the hardfault handler (RAM path) or
set a hardware breakpoint on it (flash path), the Thumb bit masked either
way. -/
def armExitActions (r : Runner) : List DebugAction :=
  if r.from_ram then
    [.write8 (maskThumb r.vector_table.hardfault) [0, 190]]
  else
    [.setHwBreakpoint (maskThumb r.vector_table.hardfault)]

/-- One answer of the external defmt stream decoder
(`StreamDecoder::decode` in src/server/src/runner.rs lines 464-485). -/
inductive DecodeOutcome where
  | frame (level : Option String) (message : String)
  | malformed
  | unexpectedEof
  deriving DecidableEq, Repr

/-- Rust's `str::to_uppercase` on the ASCII defmt level names. -/
def toUpperStr (s : String) : String := String.mk (s.data.map Char.toUpper)

/-- `format!("{:<5} ", ..)`: left-align in 5 columns, then one space. -/
def padTo5 (s : String) : String := s ++ String.mk (List.replicate (5 - s.length) ' ')

/-- The line contributed by one decoded frame:
`format!("{}{}\n", level, frame.display_message())` with the level rendered
as `format!("{:<5} ", level.as_str().to_uppercase())`, or empty when the
frame has no level. -/
def frameLine (level : Option String) (msg : String) : String :=
  (match level with
   | some l => padTo5 (toUpperStr l) ++ " "
   | none => "") ++ msg ++ "\n"

/-- The decode loop of the defmt branch of `Runner::log_to_string`
(src/server/src/runner.rs lines 459-488): append a line per frame; on a
malformed frame continue when the encoding can recover, else return the log
decoded so far; on unexpected end of input stop normally. -/
def defmtDecodeLoop (canRecover : Bool) : List DecodeOutcome → String → String
  | [], log => log
  | .frame lvl msg :: rest, log => defmtDecodeLoop canRecover rest (log ++ frameLine lvl msg)
  | .malformed :: rest, log => if canRecover then defmtDecodeLoop canRecover rest log else log
  | .unexpectedEof :: _, log => log

/-- The defmt branch of `log_to_string` never returns an error: both the
malformed-abort and the end-of-input exits wrap the log in `Ok`. -/
def logToStringDefmt (canRecover : Bool) (outcomes : List DecodeOutcome) :
    Except String String :=
  .ok (defmtDecodeLoop canRecover outcomes "")

/-- The claim's reading of the level field: uppercased and LEFT-padded to 5
characters. Modelled from the spec: `"<LEVEL> <message>"` with the level
"left-padded to 5 chars, uppercase". Used only to compare against the
code's formatting. -/
def specFrameLine (level msg : String) : String :=
  String.mk (List.replicate (5 - level.length) ' ') ++ toUpperStr level ++ " " ++ msg ++ "\n"

/-- A frame outcome from a (level, message) pair. -/
def mkFrame (f : Option String × String) : DecodeOutcome := .frame f.1 f.2

/-- The concatenation of the lines contributed by a list of frames. -/
def joinLines : List (Option String × String) → String
  | [] => ""
  | f :: fs => frameLine f.1 f.2 ++ joinLines fs

/-- One call on the `ServerStatus` state machine. -/
inductive StatusOp where
  | enqueued (id : Nat)
  | started (id : Nat)
  | finished (id : Nat)
  | cleared (id : Nat)
  deriving DecidableEq, Repr

/-- Apply one call; `none` models a panic (`job_started` on an empty queue). -/
def applyOp (s : ServerStatus) : StatusOp → Option ServerStatus
  | .enqueued id => some (s.job_enqueued id).1
  | .started id => (s.job_started id).map (·.1)
  | .finished id => some (s.job_finished id).1
  | .cleared id => some (s.job_cleared id).1

/-- Run a sequence of calls from a state. -/
def runOps (s : ServerStatus) : List StatusOp → Option ServerStatus
  | [] => some s
  | op :: rest => (applyOp s op).bind (fun s2 => runOps s2 rest)

/-- The stated precondition of each call: enqueued ids are fresh, `started`
is called with the head of the queue, `finished` with the current job,
`cleared` with a finished id. -/
def opPre (s : ServerStatus) : StatusOp → Bool
  | .enqueued id =>
      !(s.current_job == some id) && !(s.jobs_in_queue.contains id) &&
        !(s.jobs_finished.contains id)
  | .started id => s.jobs_in_queue.head? == some id
  | .finished id => s.current_job == some id
  | .cleared id => s.jobs_finished.contains id

/-- Every call of the trace satisfies its precondition in the state it is
applied to. -/
def preOk (s : ServerStatus) : List StatusOp → Bool
  | [] => true
  | op :: rest =>
      opPre s op &&
        (match applyOp s op with
         | none => false
         | some s2 => preOk s2 rest)

/-- The three job-id sets of a `ServerStatus` are pairwise disjoint. -/
def statusDisjoint (s : ServerStatus) : Bool :=
  (match s.current_job with
   | none => true
   | some id => !(s.jobs_in_queue.contains id) && !(s.jobs_finished.contains id)) &&
    s.jobs_in_queue.all (fun id => !(s.jobs_finished.contains id))

/-- Auxiliary invariant: disjointness plus a duplicate-free queue and
finished set. -/
def statusInv (s : ServerStatus) : Prop :=
  statusDisjoint s = true ∧ s.jobs_in_queue.Nodup ∧ s.jobs_finished.Nodup

/-- The five-target inventory of the repository's validator tests
(src/common/src/job.rs lines 391-424; spec scenarios S1-S4). -/
def availTest : Targets :=
  ⟨[⟨⟨"PROBE_SERIAL_1"⟩, ⟨"PROBE_ALIAS_1"⟩, ⟨"TARGET_1"⟩, [⟨"GROUP_A"⟩]⟩,
    ⟨⟨"PROBE_SERIAL_2"⟩, ⟨"PROBE_ALIAS_2"⟩, ⟨"TARGET_2"⟩, [⟨"GROUP_A"⟩]⟩,
    ⟨⟨"PROBE_SERIAL_3"⟩, ⟨"PROBE_ALIAS_3"⟩, ⟨"TARGET_3"⟩, [⟨"GROUP_A"⟩]⟩,
    ⟨⟨"PROBE_SERIAL_4"⟩, ⟨"PROBE_ALIAS_4"⟩, ⟨"TARGET_4"⟩, [⟨"GROUP_B"⟩]⟩,
    ⟨⟨"PROBE_SERIAL_5"⟩, ⟨"PROBE_ALIAS_5"⟩, ⟨"TARGET_5"⟩, [⟨"GROUP_B"⟩]⟩]⟩

/-- Base64 decoding that always succeeds, as for the test binaries. -/
def decOk : String → Except String (List Nat) := fun _ => .ok []

/-- Scenario S4 / test `target_does_not_exist`: one task selecting targets
1-3 and the nonexistent `GROUP_C`. -/
def tdsS4 : List TaskDesc :=
  [⟨[.probe_serials [⟨"PROBE_SERIAL_1"⟩], .probe_aliases [⟨"PROBE_ALIAS_2"⟩],
      .targets [⟨"TARGET_3"⟩], .groups [⟨"GROUP_C"⟩]], "bm90X2NoZWNrZWQ="⟩]

/-- Scenario S2 / test `target_duplicated_via_group`: targets 1-3 selected
directly and again through `GROUP_A`. -/
def tdsDupGroup : List TaskDesc :=
  [⟨[.probe_serials [⟨"PROBE_SERIAL_1"⟩], .probe_aliases [⟨"PROBE_ALIAS_2"⟩],
      .targets [⟨"TARGET_3"⟩], .groups [⟨"GROUP_A"⟩]], "bm90X2NoZWNrZWQ="⟩]

/-- Scenario S1 / test `valid_set_of_tasks`: each of the five targets
selected exactly once. -/
def tdsValid : List TaskDesc :=
  [⟨[.probe_serials [⟨"PROBE_SERIAL_1"⟩], .probe_aliases [⟨"PROBE_ALIAS_2"⟩],
      .targets [⟨"TARGET_3"⟩], .groups [⟨"GROUP_B"⟩]], "bm90X2NoZWNrZWQ="⟩]

/-- 16 bytes of vector table: SP `0x20001000`, reset `0x20000101` (Thumb bit
set), word 2 zero, hardfault `0x20000061` (Thumb bit set). -/
def vtDataRam : List Nat := [0, 16, 0, 32, 1, 1, 0, 32, 0, 0, 0, 0, 97, 0, 0, 32]

/-- A RAM-resident ELF accepted by `Runner::new`: `main` at `0x101`,
`_SEGGER_RTT` at `0x20000400`, vector table at `0x20000000`. -/
def elfRam : EFile :=
  ⟨[⟨"main", 257⟩, ⟨"_SEGGER_RTT", 536871936⟩],
    [⟨".vector_table", 536870912, some vtDataRam⟩]⟩

/-- The runner `Runner::new` builds from `elfRam`. -/
def runnerRam : Runner :=
  ⟨true, ⟨256, 536871936⟩, ⟨536870912, 536875008, 536871169, 536871009⟩, .plainText⟩

/-- 16 bytes of vector table for a flash image: SP `0x20001000`, reset
`0x08000101`, hardfault `0x08000061`. -/
def vtDataFlash : List Nat := [0, 16, 0, 32, 1, 1, 0, 8, 0, 0, 0, 0, 97, 0, 0, 8]

/-- A flash-resident ELF accepted by `Runner::new`: `main` at `0x8000105`
(Thumb bit set), `_SEGGER_RTT` at `0x20000400`, vector table at
`0x8000000`. -/
def elfFlash : EFile :=
  ⟨[⟨"main", 134217989⟩, ⟨"_SEGGER_RTT", 536871936⟩],
    [⟨".vector_table", 134217728, some vtDataFlash⟩]⟩

/-- The runner `Runner::new` builds from `elfFlash`. -/
def runnerFlash : Runner :=
  ⟨false, ⟨134217988, 536871936⟩, ⟨134217728, 536875008, 134217985, 134217825⟩, .plainText⟩

theorem statusDisjoint_iff (s : ServerStatus) :
    statusDisjoint s = true ↔
      ((∀ id, s.current_job = some id → id ∉ s.jobs_in_queue ∧ id ∉ s.jobs_finished) ∧
        ∀ id ∈ s.jobs_in_queue, id ∉ s.jobs_finished) := by
  obtain ⟨cur, q, fin⟩ := s
  cases cur <;> simp [statusDisjoint, List.contains, List.all_eq_true]

theorem job_enqueued_fst (s : ServerStatus) (id : Nat) :
    (s.job_enqueued id).1 = ⟨s.current_job, s.jobs_in_queue ++ [id], s.jobs_finished⟩ := rfl

theorem job_finished_fst (s : ServerStatus) (id : Nat) :
    (s.job_finished id).1 = ⟨none, s.jobs_in_queue,
      if id ∈ s.jobs_finished then s.jobs_finished else id :: s.jobs_finished⟩ := rfl

theorem job_cleared_fst (s : ServerStatus) (id : Nat) :
    (s.job_cleared id).1 = ⟨s.current_job, s.jobs_in_queue, s.jobs_finished.erase id⟩ := rfl

theorem statusInv_enqueued {s : ServerStatus} {id : Nat} (hinv : statusInv s)
    (hcur : s.current_job ≠ some id) (hq : id ∉ s.jobs_in_queue)
    (hf : id ∉ s.jobs_finished) : statusInv (s.job_enqueued id).1 := by
  obtain ⟨hd, hqn, hfn⟩ := hinv
  rw [statusDisjoint_iff] at hd
  obtain ⟨hdc, hdq⟩ := hd
  rw [job_enqueued_fst]
  refine ⟨?_, ?_, hfn⟩
  · rw [statusDisjoint_iff]
    refine ⟨fun c hc => ?_, fun x hx => ?_⟩
    · obtain ⟨h1, h2⟩ := hdc c hc
      refine ⟨?_, h2⟩
      simp only [List.mem_append, List.mem_singleton]
      rintro (h | h)
      · exact h1 h
      · exact hcur (h ▸ hc)
    · simp only [List.mem_append, List.mem_singleton] at hx
      rcases hx with h | h
      · exact hdq x h
      · exact h ▸ hf
  · simp only [List.nodup_append, List.nodup_cons, List.nodup_nil]
    exact ⟨hqn, by simp, by simpa [List.disjoint_singleton] using hq⟩

theorem statusInv_started {s : ServerStatus} {id : Nat} {tl : List Nat}
    (hinv : statusInv s) (hq : s.jobs_in_queue = id :: tl) :
    statusInv (⟨some id, tl, s.jobs_finished⟩ : ServerStatus) := by
  obtain ⟨hd, hqn, hfn⟩ := hinv
  rw [statusDisjoint_iff] at hd
  obtain ⟨_, hdq⟩ := hd
  rw [hq] at hqn hdq
  refine ⟨?_, (List.nodup_cons.mp hqn).2, hfn⟩
  rw [statusDisjoint_iff]
  refine ⟨fun c hc => ?_, fun x hx => hdq x (List.mem_cons_of_mem _ hx)⟩
  have hcid : id = c := by simpa using hc
  subst hcid
  exact ⟨(List.nodup_cons.mp hqn).1, hdq id (List.mem_cons_self _ _)⟩

theorem statusInv_finished {s : ServerStatus} {id : Nat} (hinv : statusInv s)
    (hcur : s.current_job = some id) : statusInv (s.job_finished id).1 := by
  obtain ⟨hd, hqn, hfn⟩ := hinv
  rw [statusDisjoint_iff] at hd
  obtain ⟨hdc, hdq⟩ := hd
  obtain ⟨hq1, _⟩ := hdc id hcur
  rw [job_finished_fst]
  by_cases hmem : id ∈ s.jobs_finished
  · simp only [if_pos hmem]
    refine ⟨?_, hqn, hfn⟩
    rw [statusDisjoint_iff]
    exact ⟨fun c hc => by simp at hc, hdq⟩
  · simp only [if_neg hmem]
    refine ⟨?_, hqn, List.nodup_cons.mpr ⟨hmem, hfn⟩⟩
    rw [statusDisjoint_iff]
    refine ⟨fun c hc => by simp at hc, fun x hx => ?_⟩
    simp only [List.mem_cons]
    rintro (h | h)
    · exact hq1 (h ▸ hx)
    · exact hdq x hx h

theorem statusInv_cleared {s : ServerStatus} {id : Nat} (hinv : statusInv s) :
    statusInv (s.job_cleared id).1 := by
  obtain ⟨hd, hqn, hfn⟩ := hinv
  rw [statusDisjoint_iff] at hd
  obtain ⟨hdc, hdq⟩ := hd
  rw [job_cleared_fst]
  refine ⟨?_, hqn, hfn.erase id⟩
  rw [statusDisjoint_iff]
  refine ⟨fun c hc => ?_, fun x hx hmem => hdq x hx (List.mem_of_mem_erase hmem)⟩
  obtain ⟨h1, h2⟩ := hdc c hc
  exact ⟨h1, fun hmem => h2 (List.mem_of_mem_erase hmem)⟩

theorem statusInv_applyOp {s s2 : ServerStatus} {op : StatusOp} (hinv : statusInv s)
    (hpre : opPre s op = true) (happ : applyOp s op = some s2) : statusInv s2 := by
  cases op with
  | enqueued id =>
      simp only [opPre, Bool.and_eq_true, Bool.not_eq_true', beq_eq_false_iff_ne,
        List.contains, List.elem_eq_mem, decide_eq_false_iff_not] at hpre
      obtain ⟨⟨h1, h2⟩, h3⟩ := hpre
      obtain rfl : (s.job_enqueued id).1 = s2 := by simpa [applyOp] using happ
      exact statusInv_enqueued hinv h1 h2 h3
  | started id =>
      simp only [opPre, beq_iff_eq] at hpre
      obtain ⟨tl, hq⟩ : ∃ tl, s.jobs_in_queue = id :: tl := by
        cases h : s.jobs_in_queue with
        | nil => rw [h] at hpre; simp [List.head?] at hpre
        | cons a tl =>
            rw [h] at hpre
            simp only [List.head?, Option.some.injEq] at hpre
            exact ⟨tl, by rw [hpre]⟩
      have : applyOp s (.started id) = some ⟨some id, tl, s.jobs_finished⟩ := by
        simp [applyOp, ServerStatus.job_started, hq]
      rw [this] at happ
      obtain rfl : (⟨some id, tl, s.jobs_finished⟩ : ServerStatus) = s2 := by
        simpa using happ
      exact statusInv_started hinv hq
  | finished id =>
      simp only [opPre, beq_iff_eq] at hpre
      obtain rfl : (s.job_finished id).1 = s2 := by simpa [applyOp] using happ
      exact statusInv_finished hinv hpre
  | cleared id =>
      obtain rfl : (s.job_cleared id).1 = s2 := by simpa [applyOp] using happ
      exact statusInv_cleared hinv

theorem statusInv_runOps :
    ∀ (ops : List StatusOp) (s : ServerStatus), statusInv s → preOk s ops = true →
      ∀ s2, runOps s ops = some s2 → statusInv s2
  | [], s, hinv, _, s2, hrun => by
      obtain rfl : s = s2 := by simpa [runOps] using hrun
      exact hinv
  | op :: rest, s, hinv, hpre, s2, hrun => by
      simp only [preOk, Bool.and_eq_true] at hpre
      obtain ⟨hop, hrest⟩ := hpre
      cases happ : applyOp s op with
      | none => rw [happ] at hrest; simp at hrest
      | some s1 =>
          rw [happ] at hrest
          have hinv1 := statusInv_applyOp hinv hop happ
          simp only [runOps, happ, Option.bind_some] at hrun
          exact statusInv_runOps rest s1 hinv1 hrest s2 hrun

/-- C3: starting from the empty `ServerStatus`, any sequence of
`job_enqueued` / `job_started` / `job_finished` / `job_cleared` calls whose
stated preconditions hold (fresh ids enqueued, the queue head started, the
current job finished, a finished id cleared) keeps `current_job`,
`jobs_in_queue` and `jobs_finished` pairwise disjoint. -/
theorem serverStatus_trace_disjoint (ops : List StatusOp) (s2 : ServerStatus)
    (hpre : preOk ServerStatus.default ops = true)
    (hrun : runOps ServerStatus.default ops = some s2) :
    statusDisjoint s2 = true :=
  (statusInv_runOps ops ServerStatus.default ⟨by decide, List.nodup_nil, List.nodup_nil⟩ hpre s2 hrun).1

/-- Witness for C3: a five-call trace through the whole lifecycle of job 1
with job 2 still queued. -/
theorem serverStatus_trace_disjoint_witness :
    statusDisjoint ⟨none, [2], []⟩ = true :=
  serverStatus_trace_disjoint
    [.enqueued 1, .enqueued 2, .started 1, .finished 1, .cleared 1]
    ⟨none, [2], []⟩ (by decide) (by decide)

/-- C9: `job_started` on an empty queue panics (`pop_front().unwrap()`),
modelled as `none`; every other violated precondition only logs at least
one assertion error (`error_if_*` macros) and still performs the mutation:
`started` with a non-head id pops the head and installs `id` anyway,
`enqueued` of an already-finished id still appends to the queue, `finished`
without a matching current job still clears it and inserts into the
finished set, `cleared` of a non-finished id still performs the (no-op)
removal. -/
theorem jobStarted_panics_others_log :
    (∀ (s : ServerStatus) (id : Nat), s.jobs_in_queue = [] → s.job_started id = none)
    ∧ (∀ (s : ServerStatus) (id hd : Nat) (tl : List Nat),
        s.jobs_in_queue = hd :: tl → hd ≠ id →
        ∃ n, s.job_started id = some (⟨some id, tl, s.jobs_finished⟩, n) ∧ 1 ≤ n)
    ∧ (∀ (s : ServerStatus) (id : Nat), id ∈ s.jobs_finished →
        (s.job_enqueued id).1.jobs_in_queue = s.jobs_in_queue ++ [id] ∧
          1 ≤ (s.job_enqueued id).2)
    ∧ (∀ (s : ServerStatus) (id : Nat), s.current_job ≠ some id →
        (s.job_finished id).1.current_job = none ∧
          id ∈ (s.job_finished id).1.jobs_finished ∧ 1 ≤ (s.job_finished id).2)
    ∧ (∀ (s : ServerStatus) (id : Nat), id ∉ s.jobs_finished →
        (s.job_cleared id).1.jobs_finished = s.jobs_finished.erase id ∧
          1 ≤ (s.job_cleared id).2) := by
  refine ⟨fun s id h => ?_, fun s id hd tl hq hne => ?_, fun s id h => ?_,
    fun s id h => ?_, fun s id h => ?_⟩
  · simp [ServerStatus.job_started, h]
  · refine ⟨(if hd = id then 0 else 1) + (if s.current_job = none then 0 else 1), ?_, ?_⟩
    · simp [ServerStatus.job_started, hq]
    · simp only [if_neg hne]
      omega
  · refine ⟨rfl, ?_⟩
    simp only [ServerStatus.job_enqueued, if_pos h]
    omega
  · refine ⟨rfl, ?_, ?_⟩
    · rw [job_finished_fst]
      by_cases hmem : id ∈ s.jobs_finished <;> simp [hmem]
    · simp only [ServerStatus.job_finished, if_neg h]
      omega
  · exact ⟨rfl, by simp [ServerStatus.job_cleared, if_neg h]⟩

/-- Witness for C9, at concrete states: a panic on the empty queue; a
non-head start, an enqueue of a finished id, a finish without current job
and a clear of an unknown id each mutating while logging. -/
theorem jobStarted_panics_others_log_witness :
    ServerStatus.job_started ⟨none, [], []⟩ 7 = none
    ∧ (∃ n, ServerStatus.job_started ⟨none, [3, 4], [9]⟩ 7 = some (⟨some 7, [4], [9]⟩, n) ∧ 1 ≤ n)
    ∧ ((ServerStatus.job_enqueued ⟨none, [], [5]⟩ 5).1.jobs_in_queue = [] ++ [5] ∧
        1 ≤ (ServerStatus.job_enqueued ⟨none, [], [5]⟩ 5).2)
    ∧ ((ServerStatus.job_finished ⟨none, [], []⟩ 5).1.current_job = none ∧
        5 ∈ (ServerStatus.job_finished ⟨none, [], []⟩ 5).1.jobs_finished ∧
        1 ≤ (ServerStatus.job_finished ⟨none, [], []⟩ 5).2)
    ∧ ((ServerStatus.job_cleared ⟨none, [], []⟩ 5).1.jobs_finished = List.erase [] 5 ∧
        1 ≤ (ServerStatus.job_cleared ⟨none, [], []⟩ 5).2) :=
  ⟨jobStarted_panics_others_log.1 ⟨none, [], []⟩ 7 rfl,
    jobStarted_panics_others_log.2.1 ⟨none, [3, 4], [9]⟩ 7 3 [4] rfl (by decide),
    jobStarted_panics_others_log.2.2.1 ⟨none, [], [5]⟩ 5 (by decide),
    jobStarted_panics_others_log.2.2.2.1 ⟨none, [], []⟩ 5 (by decide),
    jobStarted_panics_others_log.2.2.2.2 ⟨none, [], []⟩ 5 (by decide)⟩

/-- C2: for a job description that validates, `post_job` replies `Accepted`
with the Job body after transitioning the server status by
`job_enqueued(id)` (so the id is queryable, never `NotFound`, in the state
the reply is built from); on a full channel it replies `TooManyJobs`
(HTTP 425) and on a closed channel `InternalQueueClosed` (HTTP 500), the
server status untouched in both cases. -/
theorem post_job_admission :
    (∀ (job : JobM) (st : ServerStatus),
      post_job (.ok job) .sendOk st = (.accepted job, (st.job_enqueued job.id).1)
        ∧ (post_job (.ok job) .sendOk st).2.job_status job.id ≠ .notFound
        ∧ postJobStatusCode (.accepted job) = 202)
    ∧ (∀ (job : JobM) (st : ServerStatus),
        post_job (.ok job) .sendFull st = (.tooManyJobs, st) ∧
          postJobStatusCode .tooManyJobs = 425)
    ∧ (∀ (job : JobM) (st : ServerStatus),
        post_job (.ok job) .sendClosed st = (.internalQueueClosed, st) ∧
          postJobStatusCode .internalQueueClosed = 500) := by
  refine ⟨fun job st => ⟨rfl, ?_, rfl⟩, fun job st => ⟨rfl, rfl⟩, fun job st => ⟨rfl, rfl⟩⟩
  show (st.job_enqueued job.id).1.job_status job.id ≠ .notFound
  rw [job_enqueued_fst]
  by_cases h : st.current_job = some job.id <;> simp [ServerStatus.job_status, h]

theorem drainLoop_timesOut (deadline : Nat) (dec : List Nat → String) :
    ∀ (obs : List DrainObs) (k : Nat) (buf : List Nat),
      timesOutAt deadline obs k = true →
      drainLoop deadline dec obs buf =
        some (.error ("The firmware reached timeout, partial log:\n" ++
          dec (buf ++ ((obs.take (k + 1)).map DrainObs.chunk).flatten)))
  | [], k, buf, h => by simp [timesOutAt] at h
  | o :: rest, 0, buf, h => by
      simp only [timesOutAt, List.take_zero, List.all_nil, Bool.true_and, List.get?,
        Bool.and_eq_true, Bool.not_eq_true'] at h
      obtain ⟨hhalt, helap⟩ := h
      simp only [drainLoop, hhalt, Bool.false_eq_true, if_false, decide_eq_true_eq] at *
      rw [if_pos helap]
      simp
  | o :: rest, k + 1, buf, h => by
      simp only [timesOutAt, List.take_succ_cons, List.all_cons, List.get?,
        Bool.and_eq_true, Bool.not_eq_true', decide_eq_true_eq] at h
      obtain ⟨⟨⟨hhalt, helap⟩, htail⟩, hk⟩ := h
      have hrec := drainLoop_timesOut deadline dec rest k (buf ++ o.chunk)
        (by simp only [timesOutAt, Bool.and_eq_true]; exact ⟨htail, hk⟩)
      simp only [drainLoop, hhalt, Bool.false_eq_true, if_false]
      rw [if_neg (by omega)]
      rw [hrec]
      simp [List.append_assoc]

/-- C4: the deadline a worker enforces on the drain loop is
`min(job.timeout, max_target_timeout)` (`Worker::run_test`), compared
against the time elapsed since loop entry; if an iteration finds the core
not halted and the deadline exceeded, the run returns the timeout `Failure`
whose message carries the log decoded from exactly the bytes drained so
far. -/
theorem worker_timeout_failure (jobT maxT : Nat) (dec : List Nat → String)
    (obs : List DrainObs) (k : Nat)
    (h : timesOutAt (min jobT maxT) obs k = true) :
    workerDrain jobT maxT dec obs =
      some (.error ("The firmware reached timeout, partial log:\n" ++
        dec (((obs.take (k + 1)).map DrainObs.chunk).flatten))) := by
  have hrun := drainLoop_timesOut (min jobT maxT) dec obs k [] h
  simpa [workerDrain, effectiveTimeout] using hrun

/-- Witness for C4: a job timeout of 3 s against a 10 s server cap; the
single iteration reads two bytes, finds the core running and 4 s elapsed,
and fails carrying the log decoded from those two bytes. -/
theorem worker_timeout_failure_witness :
    workerDrain 3 10 (fun b => toString b.length) [⟨[7, 7], false, [], 4⟩] =
      some (.error "The firmware reached timeout, partial log:\n2") := by
  have h := worker_timeout_failure 3 10 (fun b => toString b.length)
    [⟨[7, 7], false, [], 4⟩] 0 (by decide)
  simpa using h

theorem defmtDecodeLoop_frames (c : Bool) :
    ∀ (fs : List (Option String × String)) (rest : List DecodeOutcome) (log : String),
      defmtDecodeLoop c (fs.map mkFrame ++ .unexpectedEof :: rest) log = log ++ joinLines fs
  | [], rest, log => by simp [defmtDecodeLoop, joinLines]
  | f :: fs, rest, log => by
      simp only [List.map_cons, List.cons_append, List.append_eq, mkFrame, defmtDecodeLoop]
      rw [defmtDecodeLoop_frames c fs rest (log ++ frameLine f.1 f.2), String.append_assoc]
      rfl

theorem defmtDecodeLoop_malformed (c : Bool) :
    ∀ (fs : List (Option String × String)) (rest : List DecodeOutcome) (log : String),
      defmtDecodeLoop c (fs.map mkFrame ++ .malformed :: rest) log =
        if c then defmtDecodeLoop c rest (log ++ joinLines fs) else log ++ joinLines fs
  | [], rest, log => by cases c <;> simp [defmtDecodeLoop, joinLines]
  | f :: fs, rest, log => by
      simp only [List.map_cons, List.cons_append, List.append_eq, mkFrame, defmtDecodeLoop]
      rw [defmtDecodeLoop_malformed c fs rest (log ++ frameLine f.1 f.2)]
      cases c <;> simp [String.append_assoc, joinLines]

/-- C7, amended: each decoded frame contributes exactly one line
`"<LEVEL> <message>"`, the level uppercased and left-ALIGNED in 5 columns
(padded on the right, not the left; empty when the frame has no level); on
end of input the decoder stops normally with the accumulated lines; on a
malformed frame it skips and continues when the encoding can recover and
otherwise returns the lines decoded so far as a non-error (`Ok`) result. -/
theorem defmt_decode_lines :
    (∀ (lvl : String) (msg : String),
      frameLine (some lvl) msg =
        toUpperStr lvl ++ String.mk (List.replicate (5 - (toUpperStr lvl).length) ' ') ++ " " ++
          msg ++ "\n")
    ∧ (∀ msg, frameLine none msg = msg ++ "\n")
    ∧ (∀ (c : Bool) (fs : List (Option String × String)) (rest : List DecodeOutcome),
        logToStringDefmt c (fs.map mkFrame ++ .unexpectedEof :: rest) = .ok (joinLines fs))
    ∧ (∀ (fs : List (Option String × String)) (rest : List DecodeOutcome) (log : String),
        defmtDecodeLoop true (fs.map mkFrame ++ .malformed :: rest) log =
          defmtDecodeLoop true rest (log ++ joinLines fs))
    ∧ (∀ (fs : List (Option String × String)) (rest : List DecodeOutcome),
        logToStringDefmt false (fs.map mkFrame ++ .malformed :: rest) = .ok (joinLines fs)) := by
  refine ⟨fun lvl msg => ?_, fun msg => rfl, fun c fs rest => ?_, fun fs rest log => ?_,
    fun fs rest => ?_⟩
  · simp [frameLine, padTo5, String.append_assoc]
  · simp [logToStringDefmt, defmtDecodeLoop_frames]
  · simpa using defmtDecodeLoop_malformed true fs rest log
  · simpa [logToStringDefmt] using defmtDecodeLoop_malformed false fs rest ""

/-- Counterexample to C7 as written: the code renders level `info` with
`format!("{:<5} ", ..)`, producing `"INFO  x"` (padded on the right), while
a level left-padded to 5 characters would give `" INFO x"`. -/
theorem defmt_level_not_left_padded :
    defmtDecodeLoop true [.frame (some "info") "x", .unexpectedEof] "" = "INFO  x\n"
    ∧ logToStringDefmt true [.frame (some "info") "x", .unexpectedEof] = .ok "INFO  x\n"
    ∧ specFrameLine "info" "x" = " INFO x\n"
    ∧ ("INFO  x\n" : String) ≠ " INFO x\n" := by
  have h1 : defmtDecodeLoop true [.frame (some "info") "x", .unexpectedEof] "" = "INFO  x\n" := by
    decide
  exact ⟨h1, congrArg Except.ok h1, by decide, by decide⟩

theorem maskThumb_even (a : Nat) : maskThumb a % 2 = 0 := by
  unfold maskThumb
  omega

theorem scanSymbols_spec (syms : List ElfSymbol) : ∀ (m0 r0 : Option Nat),
    ((scanSymbols syms m0 r0).1 = m0 ∨
      ∃ sym ∈ syms, sym.name = "main" ∧
        (scanSymbols syms m0 r0).1 = some (maskThumb (sym.addr % U32MOD))) ∧
    ((scanSymbols syms m0 r0).2 = r0 ∨
      ∃ sym ∈ syms, sym.name = "_SEGGER_RTT" ∧
        (scanSymbols syms m0 r0).2 = some (sym.addr % U32MOD)) := by
  induction syms with
  | nil => intro m0 r0; exact ⟨Or.inl rfl, Or.inl rfl⟩
  | cons sym rest ih =>
      intro m0 r0
      by_cases hm : sym.name = "main"
      · by_cases hr : sym.name = "_SEGGER_RTT"
        · rw [hm] at hr; exact absurd hr (by decide)
        · simp only [scanSymbols]
          rw [if_pos hm, if_neg hr]
          by_cases hstop :
              ((some (maskThumb (sym.addr % U32MOD))).isSome && r0.isSome) = true
          · rw [if_pos hstop]
            exact ⟨Or.inr ⟨sym, List.mem_cons_self _ _, hm, rfl⟩, Or.inl rfl⟩
          · rw [if_neg hstop]
            rcases ih (some (maskThumb (sym.addr % U32MOD))) r0 with ⟨ihm, ihr⟩
            refine ⟨?_, ?_⟩
            · rcases ihm with h | ⟨sym2, hmem, hname, hval⟩
              · exact Or.inr ⟨sym, List.mem_cons_self _ _, hm, h⟩
              · exact Or.inr ⟨sym2, List.mem_cons_of_mem _ hmem, hname, hval⟩
            · rcases ihr with h | ⟨sym2, hmem, hname, hval⟩
              · exact Or.inl h
              · exact Or.inr ⟨sym2, List.mem_cons_of_mem _ hmem, hname, hval⟩
      · by_cases hr : sym.name = "_SEGGER_RTT"
        · simp only [scanSymbols]
          rw [if_neg hm, if_pos hr]
          by_cases hstop : (m0.isSome && (some (sym.addr % U32MOD)).isSome) = true
          · rw [if_pos hstop]
            exact ⟨Or.inl rfl, Or.inr ⟨sym, List.mem_cons_self _ _, hr, rfl⟩⟩
          · rw [if_neg hstop]
            rcases ih m0 (some (sym.addr % U32MOD)) with ⟨ihm, ihr⟩
            refine ⟨?_, ?_⟩
            · rcases ihm with h | ⟨sym2, hmem, hname, hval⟩
              · exact Or.inl h
              · exact Or.inr ⟨sym2, List.mem_cons_of_mem _ hmem, hname, hval⟩
            · rcases ihr with h | ⟨sym2, hmem, hname, hval⟩
              · exact Or.inr ⟨sym, List.mem_cons_self _ _, hr, h⟩
              · exact Or.inr ⟨sym2, List.mem_cons_of_mem _ hmem, hname, hval⟩
        · simp only [scanSymbols]
          rw [if_neg hm, if_neg hr]
          by_cases hstop : (m0.isSome && r0.isSome) = true
          · rw [if_pos hstop]; exact ⟨Or.inl rfl, Or.inl rfl⟩
          · rw [if_neg hstop]
            rcases ih m0 r0 with ⟨ihm, ihr⟩
            refine ⟨?_, ?_⟩
            · rcases ihm with h | ⟨sym2, hmem, hname, hval⟩
              · exact Or.inl h
              · exact Or.inr ⟨sym2, List.mem_cons_of_mem _ hmem, hname, hval⟩
            · rcases ihr with h | ⟨sym2, hmem, hname, hval⟩
              · exact Or.inl h
              · exact Or.inr ⟨sym2, List.mem_cons_of_mem _ hmem, hname, hval⟩

theorem processSections_spec :
    ∀ (secs : List ElfSection) (vt0 : Option VectorTable) (fr0 : Bool) (vt : VectorTable)
      (fr : Bool), processSections secs vt0 fr0 = .ok (some vt, fr) →
      (vt0 = some vt ∧ fr0 = fr) ∨
        ∃ sec ∈ secs, sec.name = ".vector_table" ∧ ∃ data, sec.data = some data ∧
          16 ≤ data.length ∧ sec.addr < U32MOD ∧
          vt = ⟨sec.addr, (vtWords data).getD 0 0, (vtWords data).getD 1 0,
            (vtWords data).getD 3 0⟩ ∧
          fr = decide (536870912 ≤ sec.addr)
  | [], vt0, fr0, vt, fr => by
      intro h
      simp only [processSections, Except.ok.injEq, Prod.mk.injEq] at h
      exact Or.inl ⟨h.1, h.2⟩
  | sec :: rest, vt0, fr0, vt, fr => by
      intro h
      rw [processSections] at h
      by_cases himp : importantSections.contains sec.name = true
      · rw [if_pos himp] at h
        by_cases halign : sec.addr % 4 ≠ 0
        · rw [if_pos halign] at h; exact absurd h (by simp)
        · rw [if_neg halign] at h
          by_cases hname : sec.name = ".vector_table"
          · rw [if_pos hname] at h
            cases hd : sec.data with
            | none => rw [hd] at h; simp only at h; exact absurd h (by simp)
            | some data =>
                rw [hd] at h
                simp only at h
                by_cases hlen : data.length < 16
                · rw [if_pos hlen] at h; exact absurd h (by simp)
                · rw [if_neg hlen] at h
                  by_cases haddr : U32MOD ≤ sec.addr
                  · rw [if_pos haddr] at h; exact absurd h (by simp)
                  · rw [if_neg haddr] at h
                    rcases processSections_spec rest _ _ vt fr h with ⟨hvt, hfr⟩ | hex
                    · refine Or.inr ⟨sec, List.mem_cons_self _ _, hname, data, hd,
                        Nat.le_of_not_lt hlen, Nat.lt_of_not_le haddr,
                        (Option.some.inj hvt).symm, hfr.symm⟩
                    · obtain ⟨sec', hmem, hrest⟩ := hex
                      exact Or.inr ⟨sec', List.mem_cons_of_mem _ hmem, hrest⟩
          · rw [if_neg hname] at h
            rcases processSections_spec rest _ _ vt fr h with hleft | hex
            · exact Or.inl hleft
            · obtain ⟨sec', hmem, hrest⟩ := hex
              exact Or.inr ⟨sec', List.mem_cons_of_mem _ hmem, hrest⟩
      · rw [if_neg himp] at h
        rcases processSections_spec rest _ _ vt fr h with hleft | hex
        · exact Or.inl hleft
        · obtain ⟨sec', hmem, hrest⟩ := hex
          exact Or.inr ⟨sec', List.mem_cons_of_mem _ hmem, hrest⟩

theorem runnerNew_ok (elf : EFile) (dp : Except String (Option Bool)) (r : Runner)
    (h : runnerNew elf dp = .ok r) :
    (∃ sym ∈ elf.symbols, sym.name = "main")
    ∧ (∃ sym ∈ elf.symbols, sym.name = "_SEGGER_RTT")
    ∧ r.symbols.main % 2 = 0
    ∧ ∃ sec ∈ elf.sections, sec.name = ".vector_table" ∧ ∃ data, sec.data = some data ∧
        16 ≤ data.length ∧ r.vector_table.start = sec.addr ∧ sec.addr < U32MOD ∧
        r.vector_table.stack_pointer = (vtWords data).getD 0 0 ∧
        r.vector_table.reset = (vtWords data).getD 1 0 ∧
        r.vector_table.hardfault = (vtWords data).getD 3 0 ∧
        (r.from_ram = true ↔ RAM_START ≤ r.vector_table.start) := by
  unfold runnerNew at h
  cases hscan : scanSymbols elf.symbols none none with
  | mk mainOpt rttOpt =>
      rw [hscan] at h
      cases mainOpt with
      | none => exact absurd h (by simp)
      | some mainAddr =>
          cases rttOpt with
          | none => exact absurd h (by simp)
          | some rttAddr =>
              simp only at h
              cases hsec : processSections elf.sections none false with
              | error e => rw [hsec] at h; exact absurd h (by simp)
              | ok p =>
                  obtain ⟨vtOpt, fromRam⟩ := p
                  rw [hsec] at h
                  cases dp with
                  | error e => exact absurd h (by simp)
                  | ok tableOpt =>
                      simp only at h
                      cases vtOpt with
                      | none => exact absurd h (by simp)
                      | some vtv =>
                          simp only [Except.ok.injEq] at h
                          obtain ⟨hm, hr⟩ := scanSymbols_spec elf.symbols none none
                          rw [hscan] at hm hr
                          simp only at hm hr
                          rcases hm with hm | ⟨sym, hmem, hname, hval⟩
                          · exact absurd hm (by simp)
                          · rcases hr with hrn | ⟨sym2, hmem2, hname2, hval2⟩
                            · exact absurd hrn (by simp)
                            · rcases processSections_spec elf.sections none false vtv
                                  fromRam hsec with ⟨hvt, _⟩ | hex
                              · exact absurd hvt (by simp)
                              · obtain ⟨sec, hsmem, hsname, data, hdata, hdlen, haddr,
                                  hvteq, hfr⟩ := hex
                                subst h
                                refine ⟨⟨sym, hmem, hname⟩, ⟨sym2, hmem2, hname2⟩, ?_, sec,
                                  hsmem, hsname, data, hdata, hdlen, ?_, haddr, ?_, ?_, ?_, ?_⟩
                                · simp only [Option.some.inj hval]
                                  exact maskThumb_even _
                                · simp [hvteq]
                                · simp [hvteq]
                                · simp [hvteq]
                                · simp [hvteq]
                                · simp only [hvteq, hfr, RAM_START, decide_eq_true_eq]

/-- C5: for every ELF accepted by `Runner::new`: the `main` and
`_SEGGER_RTT` symbols are both present (construction fails with an ELF
error otherwise), the recorded `main` address has its Thumb bit cleared,
and a `.vector_table` section provides at least 16 bytes read as
little-endian 32-bit words with `stack_pointer = w[0]`, `reset = w[1]`,
`hardfault = w[3]` and `start` the section address (a valid `u32`), while
`from_ram` holds exactly when that start address is at least
`0x2000_0000`. -/
theorem runner_elf_introspection (elf : EFile) (dp : Except String (Option Bool))
    (r : Runner) (h : runnerNew elf dp = .ok r) :
    (∃ sym ∈ elf.symbols, sym.name = "main")
    ∧ (∃ sym ∈ elf.symbols, sym.name = "_SEGGER_RTT")
    ∧ r.symbols.main % 2 = 0
    ∧ ∃ sec ∈ elf.sections, sec.name = ".vector_table" ∧ ∃ data, sec.data = some data ∧
        16 ≤ data.length ∧ r.vector_table.start = sec.addr ∧ sec.addr < U32MOD ∧
        r.vector_table.stack_pointer = (vtWords data).getD 0 0 ∧
        r.vector_table.reset = (vtWords data).getD 1 0 ∧
        r.vector_table.hardfault = (vtWords data).getD 3 0 ∧
        (r.from_ram = true ↔ RAM_START ≤ r.vector_table.start) :=
  runnerNew_ok elf dp r h

/-- Witness for C5: the concrete RAM-resident ELF `elfRam` is accepted and
satisfies every clause. -/
theorem runner_elf_introspection_witness :
    (∃ sym ∈ elfRam.symbols, sym.name = "main")
    ∧ (∃ sym ∈ elfRam.symbols, sym.name = "_SEGGER_RTT")
    ∧ runnerRam.symbols.main % 2 = 0
    ∧ ∃ sec ∈ elfRam.sections, sec.name = ".vector_table" ∧ ∃ data, sec.data = some data ∧
        16 ≤ data.length ∧ runnerRam.vector_table.start = sec.addr ∧ sec.addr < U32MOD ∧
        runnerRam.vector_table.stack_pointer = (vtWords data).getD 0 0 ∧
        runnerRam.vector_table.reset = (vtWords data).getD 1 0 ∧
        runnerRam.vector_table.hardfault = (vtWords data).getD 3 0 ∧
        (runnerRam.from_ram = true ↔ RAM_START ≤ runnerRam.vector_table.start) :=
  runner_elf_introspection elfRam (.ok none) runnerRam rfl

/-- Counterexample to C6 as written: `Runner::run` writes the raw reset
vector word into the PC on the RAM-resident path (src/server/src/runner.rs
line 287, `core.write_core_reg(PC, self.vector_table.reset.0)`, no
masking); for the accepted ELF `elfRam`, whose reset word `0x20000101` has
the Thumb bit set, the value written to the PC is odd. -/
theorem pc_write_from_reset_not_masked :
    runnerNew elfRam (.ok none) = .ok runnerRam
    ∧ DebugAction.writeReg PCreg 536871169 ∈ startTargetActions runnerRam
    ∧ 536871169 % 2 = 1 :=
  ⟨rfl, by decide, by decide⟩

/-- C6, amended: in every run of a constructed runner, every address used
as a breakpoint (the `main` breakpoint and the flash-path hardfault
breakpoint) and the RAM-path hardfault patch address have the Thumb bit
cleared before use; the PC written on the RAM path, however, receives the
raw `vector_table.reset` word, unmasked. -/
theorem breakpoint_addresses_masked (elf : EFile) (dp : Except String (Option Bool))
    (r : Runner) (h : runnerNew elf dp = .ok r) :
    (∀ a, DebugAction.setHwBreakpoint a ∈ startTargetActions r ++ armExitActions r →
      a % 2 = 0)
    ∧ (∀ a bs, DebugAction.write8 a bs ∈ startTargetActions r ++ armExitActions r →
        a % 2 = 0)
    ∧ (r.from_ram = true →
        DebugAction.writeReg PCreg r.vector_table.reset ∈ startTargetActions r) := by
  obtain ⟨_, _, hmain, _⟩ := runnerNew_ok elf dp r h
  refine ⟨fun a hmem => ?_, fun a bs hmem => ?_, fun hfr => ?_⟩
  · cases hfr : r.from_ram with
    | true => simp [startTargetActions, armExitActions, hfr] at hmem
    | false =>
        simp only [startTargetActions, armExitActions, hfr, Bool.false_eq_true, if_false,
          List.mem_append, List.mem_cons, List.mem_singleton, List.not_mem_nil,
          or_false, false_or, reduceCtorEq] at hmem
        rcases hmem with hmem | hmem
        · rw [DebugAction.setHwBreakpoint.injEq] at hmem
          rw [hmem]; exact hmain
        · rw [DebugAction.setHwBreakpoint.injEq] at hmem
          rw [hmem]; exact maskThumb_even _
  · cases hfr : r.from_ram with
    | true =>
        simp only [startTargetActions, armExitActions, hfr, if_true, List.mem_append,
          List.mem_cons, List.mem_singleton, List.not_mem_nil, or_false,
          reduceCtorEq, false_or] at hmem
        rw [DebugAction.write8.injEq] at hmem
        rw [hmem.1]; exact maskThumb_even _
    | false => simp [startTargetActions, armExitActions, hfr] at hmem
  · simp [startTargetActions, hfr]

/-- Witness for the amended C6: the flash ELF `elfFlash` yields even `main`
and hardfault breakpoint addresses, and the RAM ELF `elfRam` does write the
PC from the reset slot. -/
theorem breakpoint_addresses_masked_witness :
    134217988 % 2 = 0 ∧ 134217824 % 2 = 0 ∧
      DebugAction.writeReg PCreg runnerRam.vector_table.reset ∈ startTargetActions runnerRam :=
  ⟨(breakpoint_addresses_masked elfFlash (.ok none) runnerFlash rfl).1 134217988 (by decide),
    (breakpoint_addresses_masked elfFlash (.ok none) runnerFlash rfl).1 134217824 (by decide),
    (breakpoint_addresses_masked elfRam (.ok none) runnerRam rfl).2.2 rfl⟩

theorem taskLoopErrors_shape (dec : String → Except String (List Nat)) (tds : List TaskDesc) :
    ∀ e ∈ taskLoopErrors dec tds,
      (∃ en, e = ValidationError.noTargetChosen en) ∨
        ∃ en d, e = ValidationError.base64DecodingFailed en d := by
  intro e he
  simp only [taskLoopErrors, List.mem_flatten, List.mem_map] at he
  obtain ⟨l, ⟨p, hp, rfl⟩, hel⟩ := he
  rw [List.mem_append] at hel
  rcases hel with hel | hel
  · left
    split at hel
    · exact absurd hel (List.not_mem_nil e)
    · rw [List.mem_singleton] at hel
      exact ⟨_, hel⟩
  · right
    split at hel
    · exact absurd hel (List.not_mem_nil e)
    · rw [List.mem_singleton] at hel
      exact ⟨_, _, hel⟩

theorem notAvailableErrors_shape (pm : List (String × Option Target)) :
    ∀ e ∈ notAvailableErrors pm, ∃ k, e = ValidationError.targetNotAvailable k := by
  intro e he
  simp only [notAvailableErrors, List.mem_filterMap] at he
  obtain ⟨p, hp, hpe⟩ := he
  split at hpe
  · exact ⟨_, (Option.some.inj hpe).symm⟩
  · exact absurd hpe (by simp)

theorem firstTargetFor_serial {res : List (String × Target)} {s : ProbeSerial} {t : Target}
    (h : firstTargetFor res s = some t) : t.probe_serial = s := by
  simp only [firstTargetFor, Option.map_eq_some'] at h
  obtain ⟨p, hfind, rfl⟩ := h
  have hp := List.find?_some hfind
  simpa [beq_iff_eq] using hp

theorem firstTargetFor_mem {res : List (String × Target)} {s : ProbeSerial} {t : Target}
    (h : firstTargetFor res s = some t) : s ∈ res.map (fun p => p.2.probe_serial) := by
  simp only [firstTargetFor, Option.map_eq_some'] at h
  obtain ⟨p, hfind, rfl⟩ := h
  have hp := List.find?_some hfind
  rw [List.mem_map]
  exact ⟨p, List.mem_of_find?_eq_some hfind, by simpa [beq_iff_eq] using hp⟩

theorem firstTargetFor_isSome_of_mem {res : List (String × Target)} {s : ProbeSerial}
    (h : s ∈ res.map (fun p => p.2.probe_serial)) : ∃ t, firstTargetFor res s = some t := by
  rw [List.mem_map] at h
  obtain ⟨p, hp, hps⟩ := h
  have hsome : (res.find? (fun q => q.2.probe_serial == s)).isSome := by
    rw [List.find?_isSome]
    exact ⟨p, hp, by simp [hps]⟩
  obtain ⟨q, hq⟩ := Option.isSome_iff_exists.mp hsome
  exact ⟨q.2, by simp [firstTargetFor, hq]⟩

theorem entriesFor_mem_of_two_le {res : List (String × Target)} {s : ProbeSerial}
    (h : 2 ≤ (entriesFor res s).length) : s ∈ res.map (fun p => p.2.probe_serial) := by
  have hne : res.filter (fun p => p.2.probe_serial == s) ≠ [] := by
    intro hnil
    rw [entriesFor, hnil] at h
    simp at h
  obtain ⟨p, hp⟩ := List.exists_mem_of_ne_nil _ hne
  rw [List.mem_filter] at hp
  rw [List.mem_map]
  exact ⟨p, hp.1, by simpa [beq_iff_eq] using hp.2⟩

theorem mem_dedupFirstAux (a : ProbeSerial) :
    ∀ (l seen : List ProbeSerial), a ∈ dedupFirstAux seen l ↔ a ∈ l ∧ a ∉ seen
  | [], seen => by simp [dedupFirstAux]
  | s :: rest, seen => by
      by_cases hs : s ∈ seen
      · rw [dedupFirstAux, if_pos hs, mem_dedupFirstAux a rest seen]
        constructor
        · rintro ⟨h1, h2⟩
          exact ⟨List.mem_cons_of_mem _ h1, h2⟩
        · rintro ⟨h1, h2⟩
          rcases List.mem_cons.mp h1 with rfl | h1
          · exact absurd hs h2
          · exact ⟨h1, h2⟩
      · rw [dedupFirstAux, if_neg hs, List.mem_cons, mem_dedupFirstAux a rest (s :: seen)]
        constructor
        · rintro (rfl | ⟨h1, h2⟩)
          · exact ⟨List.mem_cons_self _ _, hs⟩
          · exact ⟨List.mem_cons_of_mem _ h1, fun hc => h2 (List.mem_cons_of_mem _ hc)⟩
        · rintro ⟨h1, h2⟩
          by_cases has : a = s
          · exact Or.inl has
          · right
            rcases List.mem_cons.mp h1 with rfl | h1
            · exact absurd rfl has
            · exact ⟨h1, fun hc => (List.mem_cons.mp hc).elim (fun h => has h) h2⟩

theorem nodup_dedupFirstAux : ∀ (l seen : List ProbeSerial), (dedupFirstAux seen l).Nodup
  | [], seen => by simp [dedupFirstAux]
  | s :: rest, seen => by
      by_cases hs : s ∈ seen
      · rw [dedupFirstAux, if_pos hs]
        exact nodup_dedupFirstAux rest seen
      · rw [dedupFirstAux, if_neg hs]
        refine List.nodup_cons.mpr ⟨?_, nodup_dedupFirstAux rest (s :: seen)⟩
        rw [mem_dedupFirstAux]
        rintro ⟨_, h2⟩
        exact h2 (List.mem_cons_self _ _)

theorem mem_serialsInOrder {res : List (String × Target)} {s : ProbeSerial} :
    s ∈ serialsInOrder res ↔ s ∈ res.map (fun p => p.2.probe_serial) := by
  rw [serialsInOrder, mem_dedupFirstAux]
  simp

theorem nodup_serialsInOrder (res : List (String × Target)) : (serialsInOrder res).Nodup :=
  nodup_dedupFirstAux _ _

theorem notUniqueEmit_some {res : List (String × Target)} {s : ProbeSerial}
    {e : ValidationError} (h : notUniqueEmit res s = some e) :
    ∃ t, firstTargetFor res s = some t ∧ t.probe_serial = s ∧
      2 ≤ (entriesFor res s).length ∧
      e = ValidationError.targetIsNotUnique t (entriesFor res s) := by
  rw [notUniqueEmit] at h
  split_ifs at h with hlen
  · rw [Option.map_eq_some'] at h
    obtain ⟨t, ht, rfl⟩ := h
    exact ⟨t, ht, firstTargetFor_serial ht, hlen, rfl⟩

theorem notUniqueEmit_none_of_first {res : List (String × Target)} {s : ProbeSerial}
    (hsome : ∃ t, firstTargetFor res s = some t) (h : notUniqueEmit res s = none) :
    ¬ 2 ≤ (entriesFor res s).length := by
  intro hlen
  rw [notUniqueEmit, if_pos hlen] at h
  obtain ⟨t, ht⟩ := hsome
  rw [ht] at h
  simp at h

theorem countP_filterMap_notUniqueEmit (res : List (String × Target)) (s : ProbeSerial) :
    ∀ (K : List ProbeSerial), K.Nodup →
      (∀ s2 ∈ K, s2 ∈ res.map (fun p => p.2.probe_serial)) →
      (K.filterMap (notUniqueEmit res)).countP (isNotUniqueFor s) =
        if s ∈ K ∧ 2 ≤ (entriesFor res s).length then 1 else 0
  | [], _, _ => by simp
  | k :: K, hnd, hmem => by
      obtain ⟨hkK, hndK⟩ := List.nodup_cons.mp hnd
      have ih := countP_filterMap_notUniqueEmit res s K hndK
        (fun s2 h2 => hmem s2 (List.mem_cons_of_mem _ h2))
      rw [List.filterMap_cons]
      cases hemit : notUniqueEmit res k with
      | none =>
          simp only
          rw [ih]
          by_cases hsk : s = k
          · subst hsk
            have hlt := notUniqueEmit_none_of_first
              (firstTargetFor_isSome_of_mem (hmem s (List.mem_cons_self _ _))) hemit
            rw [if_neg (fun hc => hkK hc.1), if_neg (fun hc => hlt hc.2)]
          · exact if_congr (by simp [List.mem_cons, hsk]) rfl rfl
      | some e =>
          obtain ⟨t, ht, hts, hlen, rfl⟩ := notUniqueEmit_some hemit
          simp only
          rw [List.countP_cons, ih]
          by_cases hsk : s = k
          · subst hsk
            rw [if_neg (fun hc => hkK hc.1)]
            simp [isNotUniqueFor, hts, hlen]
          · have hpe : isNotUniqueFor s
                (ValidationError.targetIsNotUnique t (entriesFor res k)) = false := by
              simp only [isNotUniqueFor, hts, beq_eq_false_iff_ne, ne_eq]
              exact fun h => hsk h.symm
            rw [hpe]
            simp only [Bool.false_eq_true, if_false, Nat.add_zero]
            exact if_congr (by simp [List.mem_cons, hsk]) rfl rfl

theorem validationErrors_notUnique_count (dec : String → Except String (List Nat))
    (tds : List TaskDesc) (avail : Targets) (s : ProbeSerial) :
    (validationErrors dec tds avail).countP (isNotUniqueFor s) =
      if 2 ≤ (entriesFor (resolvedEntries (positionTargetMap tds avail)) s).length then 1
      else 0 := by
  rw [validationErrors, List.countP_append, List.countP_append]
  have hA : (taskLoopErrors dec tds).countP (isNotUniqueFor s) = 0 := by
    rw [List.countP_eq_zero]
    intro e he
    rcases taskLoopErrors_shape dec tds e he with ⟨en, rfl⟩ | ⟨en, d, rfl⟩ <;>
      simp [isNotUniqueFor]
  have hB : (notAvailableErrors (positionTargetMap tds avail)).countP (isNotUniqueFor s) = 0 := by
    rw [List.countP_eq_zero]
    intro e he
    obtain ⟨k, rfl⟩ := notAvailableErrors_shape _ e he
    simp [isNotUniqueFor]
  rw [hA, hB, notUniqueErrors,
    countP_filterMap_notUniqueEmit (resolvedEntries (positionTargetMap tds avail)) s
      (serialsInOrder (resolvedEntries (positionTargetMap tds avail)))
      (nodup_serialsInOrder _) (fun s2 h2 => mem_serialsInOrder.mp h2)]
  by_cases hlen : 2 ≤ (entriesFor (resolvedEntries (positionTargetMap tds avail)) s).length
  · rw [if_pos ⟨mem_serialsInOrder.mpr (entriesFor_mem_of_two_le hlen), hlen⟩, if_pos hlen]
  · rw [if_neg (fun hc => hlen hc.2), if_neg hlen]

theorem validationErrors_notUnique_mem (dec : String → Except String (List Nat))
    (tds : List TaskDesc) (avail : Targets) (s : ProbeSerial) (t : Target)
    (hfirst : firstTargetFor (resolvedEntries (positionTargetMap tds avail)) s = some t)
    (hlen : 2 ≤ (entriesFor (resolvedEntries (positionTargetMap tds avail)) s).length) :
    ValidationError.targetIsNotUnique t
        (entriesFor (resolvedEntries (positionTargetMap tds avail)) s) ∈
      validationErrors dec tds avail := by
  rw [validationErrors, List.mem_append]
  right
  rw [notUniqueErrors, List.mem_filterMap]
  refine ⟨s, mem_serialsInOrder.mpr (firstTargetFor_mem hfirst), ?_⟩
  rw [notUniqueEmit, if_pos hlen, hfirst]
  rfl

theorem validate_ok_iff (dec : String → Except String (List Nat)) (tds : List TaskDesc)
    (avail : Targets) (tasks : List Task) :
    validate_tasks_coherency dec tds avail = .ok tasks ↔
      validationErrors dec tds avail = [] ∧ validateTasks dec avail tds = tasks := by
  constructor
  · intro h
    rw [validate_tasks_coherency] at h
    split_ifs at h with he
    · exact ⟨List.isEmpty_iff.mp he, Except.ok.inj h⟩
  · rintro ⟨h1, rfl⟩
    rw [validate_tasks_coherency, if_pos (by rw [h1]; rfl)]

theorem taskLoopErrors_nil_decode {dec : String → Except String (List Nat)}
    {tds : List TaskDesc} (h : taskLoopErrors dec tds = []) :
    ∀ p ∈ List.enumFrom 0 tds, ∀ e, dec p.2.binary_b64 ≠ .error e := by
  intro p hp e hdec
  rw [taskLoopErrors, List.flatten_eq_nil_iff] at h
  have h2 := h _ (List.mem_map.mpr ⟨p, hp, rfl⟩)
  rw [List.append_eq_nil] at h2
  have h3 := h2.2
  rw [hdec] at h3
  simp at h3

theorem validateTasksAux_map_targets (dec : String → Except String (List Nat))
    (avail : Targets) :
    ∀ (l : List (Nat × TaskDesc)), (∀ p ∈ l, ∀ e, dec p.2.binary_b64 ≠ .error e) →
      (validateTasksAux dec avail l).map Task.targets =
        l.map (fun p => taskTargets avail p.1 p.2)
  | [], _ => rfl
  | p :: l, h => by
      rw [validateTasksAux, List.filterMap_cons]
      cases hdec : dec p.2.binary_b64 with
      | error e => exact absurd hdec (h p (List.mem_cons_self _ _) e)
      | ok bin =>
          simp only
          rw [← validateTasksAux]
          simp [validateTasksAux_map_targets dec avail l
            (fun q hq => h q (List.mem_cons_of_mem _ hq))]

theorem validateTasks_targets_flatten (dec : String → Except String (List Nat))
    (avail : Targets) (tds : List TaskDesc)
    (hok : ∀ p ∈ List.enumFrom 0 tds, ∀ e, dec p.2.binary_b64 ≠ .error e) :
    ((validateTasks dec avail tds).map Task.targets).flatten =
      (positionTargetMap tds avail).filterMap (fun p => p.2) := by
  rw [validateTasks, validateTasksAux_map_targets dec avail _ hok, positionTargetMap,
    List.filterMap_flatten, List.map_map]
  rfl

theorem map_snd_filterMap_resolved : ∀ (pm : List (String × Option Target)),
    (pm.filterMap (fun p => p.2.map (fun t => (p.1, t)))).map (fun p => p.2) =
      pm.filterMap (fun p => p.2)
  | [] => rfl
  | (k, v) :: pm => by
      rw [List.filterMap_cons, List.filterMap_cons]
      cases v with
      | none => simpa using map_snd_filterMap_resolved pm
      | some t => simpa using map_snd_filterMap_resolved pm

theorem resolvedEntries_map_snd (pm : List (String × Option Target)) :
    (resolvedEntries pm).map (fun p => p.2) = pm.filterMap (fun p => p.2) :=
  map_snd_filterMap_resolved pm

theorem nodup_map_of_countP_le_one {α β : Type} [DecidableEq β] (f : α → β) :
    ∀ (l : List α), (∀ b, l.countP (fun a => f a == b) ≤ 1) → (l.map f).Nodup
  | [], _ => List.nodup_nil
  | a :: t, h => by
      rw [List.map_cons, List.nodup_cons]
      refine ⟨?_, nodup_map_of_countP_le_one f t (fun b => ?_)⟩
      · intro hmem
        have h1 := h (f a)
        rw [List.countP_cons] at h1
        simp only [beq_self_eq_true, if_true] at h1
        obtain ⟨x, hx, hfx⟩ := List.mem_map.mp hmem
        have hzero : t.countP (fun y => f y == f a) = 0 := by omega
        rw [List.countP_eq_zero] at hzero
        exact hzero x hx (by simp [hfx])
      · have hb := h b
        rw [List.countP_cons] at hb
        omega

/-- C1: validation groups the resolved entry-paths by `probe_serial` and
emits exactly one `TargetIsNotUnique{target, entries}` per serial with two
or more entry-paths — whether the duplication is within one task, across
tasks, or via group expansion is immaterial, since all resolutions land in
one flat `position_target_map`; the error carries the full entry-path list
of that serial; and a successfully validated job never contains two targets
with the same `probe_serial`. -/
theorem validator_unique_targets (dec : String → Except String (List Nat))
    (tds : List TaskDesc) (avail : Targets) :
    (∀ s : ProbeSerial,
      (validationErrors dec tds avail).countP (isNotUniqueFor s) =
        if 2 ≤ (entriesFor (resolvedEntries (positionTargetMap tds avail)) s).length then 1
        else 0)
    ∧ (∀ (s : ProbeSerial) (t : Target),
        firstTargetFor (resolvedEntries (positionTargetMap tds avail)) s = some t →
        2 ≤ (entriesFor (resolvedEntries (positionTargetMap tds avail)) s).length →
        ValidationError.targetIsNotUnique t
            (entriesFor (resolvedEntries (positionTargetMap tds avail)) s) ∈
          validationErrors dec tds avail)
    ∧ (∀ tasks, validate_tasks_coherency dec tds avail = .ok tasks →
        ((tasks.map Task.targets).flatten.map Target.probe_serial).Nodup) := by
  refine ⟨validationErrors_notUnique_count dec tds avail,
    validationErrors_notUnique_mem dec tds avail, fun tasks hok => ?_⟩
  obtain ⟨herr, htasks⟩ := (validate_ok_iff dec tds avail tasks).mp hok
  have herr2 := herr
  rw [validationErrors] at herr2
  obtain ⟨hAB, hC⟩ := List.append_eq_nil.mp herr2
  obtain ⟨hA, hB⟩ := List.append_eq_nil.mp hAB
  subst htasks
  rw [validateTasks_targets_flatten dec avail tds (taskLoopErrors_nil_decode hA),
    ← resolvedEntries_map_snd, List.map_map]
  have hlen : ∀ s : ProbeSerial,
      ¬ 2 ≤ (entriesFor (resolvedEntries (positionTargetMap tds avail)) s).length := by
    intro s h2
    have hcount := validationErrors_notUnique_count dec tds avail s
    rw [herr, if_pos h2] at hcount
    simp at hcount
  apply nodup_map_of_countP_le_one
  intro b
  show (resolvedEntries (positionTargetMap tds avail)).countP
      (fun p => p.2.probe_serial == b) ≤ 1
  have hconv : (resolvedEntries (positionTargetMap tds avail)).countP
      (fun p => p.2.probe_serial == b) =
      (entriesFor (resolvedEntries (positionTargetMap tds avail)) b).length := by
    rw [entriesFor, List.length_map, List.countP_eq_length_filter]
  have := hlen b
  omega

/-- Witness for C1: the duplicated-via-group scenario yields a
`TargetIsNotUnique` for `PROBE_SERIAL_1` carrying both entry-paths; the
uniquely-resolved scenario validates and its five targets have pairwise
distinct serials. -/
theorem validator_unique_targets_witness :
    (ValidationError.targetIsNotUnique
        ⟨⟨"PROBE_SERIAL_1"⟩, ⟨"PROBE_ALIAS_1"⟩, ⟨"TARGET_1"⟩, [⟨"GROUP_A"⟩]⟩
        (entriesFor (resolvedEntries (positionTargetMap tdsDupGroup availTest))
          ⟨"PROBE_SERIAL_1"⟩) ∈
      validationErrors decOk tdsDupGroup availTest)
    ∧ ((([⟨availTest.targets, []⟩] : List Task).map Task.targets).flatten.map
        Target.probe_serial).Nodup :=
  ⟨(validator_unique_targets decOk tdsDupGroup availTest).2.1 ⟨"PROBE_SERIAL_1"⟩
      ⟨⟨"PROBE_SERIAL_1"⟩, ⟨"PROBE_ALIAS_1"⟩, ⟨"TARGET_1"⟩, [⟨"GROUP_A"⟩]⟩
      (by decide) (by decide),
    (validator_unique_targets decOk tdsValid availTest).2.2 [⟨availTest.targets, []⟩] rfl⟩

theorem count_filterMap_notAvailable :
    ∀ (pm : List (String × Option Target)) (k : String),
      (pm.filterMap (fun p =>
        match p.2 with
        | none => some (ValidationError.targetNotAvailable p.1)
        | some _ => none)).count (ValidationError.targetNotAvailable k) =
        pm.count (k, (none : Option Target))
  | [], k => rfl
  | (k2, v) :: pm, k => by
      rw [List.filterMap_cons]
      cases v with
      | none =>
          simp only
          rw [List.count_cons, List.count_cons, count_filterMap_notAvailable pm k]
          by_cases hk : k2 = k
          · subst hk; simp
          · simp [hk]
      | some t =>
          simp only
          rw [List.count_cons, count_filterMap_notAvailable pm k]
          simp

theorem validationErrors_notAvailable_count (dec : String → Except String (List Nat))
    (tds : List TaskDesc) (avail : Targets) (k : String) :
    (validationErrors dec tds avail).count (ValidationError.targetNotAvailable k) =
      (positionTargetMap tds avail).count (k, (none : Option Target)) := by
  rw [validationErrors, List.count_append, List.count_append]
  have hA : (taskLoopErrors dec tds).count (ValidationError.targetNotAvailable k) = 0 := by
    rw [List.count_eq_zero]
    intro hmem
    rcases taskLoopErrors_shape dec tds _ hmem with ⟨en, h⟩ | ⟨en, d, h⟩ <;> simp at h
  have hC : (notUniqueErrors (resolvedEntries (positionTargetMap tds avail))).count
      (ValidationError.targetNotAvailable k) = 0 := by
    rw [List.count_eq_zero]
    intro hmem
    rw [notUniqueErrors, List.mem_filterMap] at hmem
    obtain ⟨s, _, hemit⟩ := hmem
    obtain ⟨t, _, _, _, he⟩ := notUniqueEmit_some hemit
    simp at he
  rw [hA, hC, notAvailableErrors, count_filterMap_notAvailable]
  omega

theorem positionTargetMap_keys (tds : List TaskDesc) (avail : Targets) :
    ∀ (k : String) (v : Option Target), (k, v) ∈ positionTargetMap tds avail →
      ∃ ident t r variant irr,
        variant ∈ ["probe_serials", "probe_aliases", "targets", "groups"] ∧
        k = entryKey ident t r variant irr := by
  intro k v hmem
  rw [positionTargetMap, List.mem_flatten] at hmem
  obtain ⟨l, hl, hkl⟩ := hmem
  rw [List.mem_map] at hl
  obtain ⟨p, hp, rfl⟩ := hl
  rw [taskEntries, List.mem_flatten] at hkl
  obtain ⟨l2, hl2, hkl2⟩ := hkl
  rw [List.mem_map] at hl2
  obtain ⟨q, hq, rfl⟩ := hl2
  cases hro : q.2 with
  | probe_serials ps =>
      rw [hro, runOnEntries, List.mem_map] at hkl2
      obtain ⟨pr, hpr, heq⟩ := hkl2
      cases heq
      exact ⟨pr.2.val, p.1, q.1, "probe_serials", pr.1, by simp, rfl⟩
  | probe_aliases l3 =>
      rw [hro, runOnEntries, List.mem_map] at hkl2
      obtain ⟨pr, hpr, heq⟩ := hkl2
      cases heq
      exact ⟨pr.2.val, p.1, q.1, "probe_aliases", pr.1, by simp, rfl⟩
  | targets ns =>
      rw [hro, runOnEntries, List.mem_map] at hkl2
      obtain ⟨pr, hpr, heq⟩ := hkl2
      cases heq
      exact ⟨pr.2.val, p.1, q.1, "targets", pr.1, by simp, rfl⟩
  | groups gs =>
      rw [hro, runOnEntries, List.mem_flatten] at hkl2
      obtain ⟨l3, hl3, hkl3⟩ := hkl2
      rw [List.mem_map] at hl3
      obtain ⟨g, hg, rfl⟩ := hl3
      simp only at hkl3
      split at hkl3
      · rw [List.mem_singleton] at hkl3
        cases hkl3
        exact ⟨g.2.val, p.1, q.1, "groups", g.1, by simp, rfl⟩
      · rw [List.mem_map] at hkl3
        obtain ⟨t2, ht2, heq⟩ := hkl3
        cases heq
        exact ⟨g.2.val, p.1, q.1, "groups", g.1, by simp, rfl⟩

/-- C8: validation emits one `TargetNotAvailable{entry}` error per recorded
`(entry-path, None)` resolution (stated as an exact count identity); every
recorded entry-path has the shape
`"{identifier} @ tasks.{t}.run_on.{r}.{variant}.{k}"` with the variant one
of `probe_serials`, `probe_aliases`, `targets`, `groups`; and in the
concrete empty-group scenario S4 the whole error list is exactly one
`TargetNotAvailable` for the group entry. -/
theorem validator_not_available_errors (dec : String → Except String (List Nat))
    (tds : List TaskDesc) (avail : Targets) :
    (∀ k : String,
      (validationErrors dec tds avail).count (ValidationError.targetNotAvailable k) =
        (positionTargetMap tds avail).count (k, (none : Option Target)))
    ∧ (∀ (k : String) (v : Option Target), (k, v) ∈ positionTargetMap tds avail →
        ∃ ident t r variant irr,
          variant ∈ ["probe_serials", "probe_aliases", "targets", "groups"] ∧
          k = entryKey ident t r variant irr)
    ∧ validationErrors decOk tdsS4 availTest =
        [ValidationError.targetNotAvailable "GROUP_C @ tasks.0.run_on.3.groups.0"] :=
  ⟨validationErrors_notAvailable_count dec tds avail, positionTargetMap_keys tds avail, rfl⟩

/-- Witness for C8: the empty-group entry-path of scenario S4 is recorded
as unresolved and has the documented dotted shape. -/
theorem validator_not_available_errors_witness :
    ∃ ident t r variant irr,
      variant ∈ ["probe_serials", "probe_aliases", "targets", "groups"] ∧
      "GROUP_C @ tasks.0.run_on.3.groups.0" = entryKey ident t r variant irr :=
  (validator_not_available_errors decOk tdsS4 availTest).2.1
    "GROUP_C @ tasks.0.run_on.3.groups.0" none (by decide)

/-- C10: `UnordEqVec` equality (and hence `ValidationErrors` equality, which
compares its error list this way) holds exactly when every element of each
vector is contained in the other, so it ignores both order and
multiplicity: `[x, x, y]` compares equal to `[x, y, y]`. -/
theorem unordEq_iff_mutual_containment :
    (∀ (a b : List Nat), unordEq (· == ·) a b = true ↔
      ((∀ x ∈ a, x ∈ b) ∧ ∀ x ∈ b, x ∈ a))
    ∧ (∀ (a b : List ValidationError), validationErrorsEqRust a b = true ↔
        ((∀ e ∈ a, ∃ f ∈ b, ValidationError.beqRust f e = true) ∧
          ∀ e ∈ b, ∃ f ∈ a, ValidationError.beqRust f e = true))
    ∧ unordEq (· == ·) [0, 0, 1] [0, 1, 1] = true
    ∧ validationErrorsEqRust
        [.noTargetChosen "a", .noTargetChosen "a", .noTargetChosen "b"]
        [.noTargetChosen "a", .noTargetChosen "b", .noTargetChosen "b"] = true := by
  refine ⟨fun a b => ?_, fun a b => ?_, by decide, by decide⟩
  · simp only [unordEq, Bool.and_eq_true, List.all_eq_true, List.any_eq_true, beq_iff_eq]
    constructor
    · rintro ⟨h1, h2⟩
      exact ⟨fun x hx => by obtain ⟨w, hw, rfl⟩ := h1 x hx; exact hw,
        fun x hx => by obtain ⟨w, hw, rfl⟩ := h2 x hx; exact hw⟩
    · rintro ⟨h1, h2⟩
      exact ⟨fun x hx => ⟨x, h1 x hx, rfl⟩, fun x hx => ⟨x, h2 x hx, rfl⟩⟩
  · simp [validationErrorsEqRust, unordEq, List.all_eq_true, List.any_eq_true]

end EmbeddedCI
